import Mathlib

/-!
# Verification of the cppcoro coroutine-primitive core

A shallow embedding of the repository's three components:

* the exception-capture mix-in `exception_promise` (exception_promise.hpp),
* the lazily started `task` with its continuation-handoff race (task.hpp),
* the pull-based `generator` and the chain-flattening `recursive_generator`
  (generator.hpp, the recursive part of exception_promise.hpp), together with
  the two `fmap` adapters.

Coroutine bodies are modelled as inductive programs; the compiler-generated
resumable frames become explicit state values; the pointer-linked chain of
`recursive_generator` promises becomes a heap of nodes indexed by `Nat`.
Exceptions are an opaque type `ε`; `std::exception_ptr` is `Option ε`
(`none` = null), and moving an `exception_ptr` out (as
`std::rethrow_exception(std::move(m_exception))` does) leaves `none` behind.
-/

/-- `std::exception_ptr m_exception` slot of `exception_promise<false,Base>`
(exception_promise.hpp lines 29). `none` models the null `exception_ptr`. -/
structure ExcPromise (ε : Type) where
  m_exception : Option ε

/-- `exception_promise<false>::unhandled_exception()` (line 32):
stores the current exception. -/
def exc_unhandled (_p : ExcPromise ε) (e : ε) : ExcPromise ε :=
  { m_exception := some e }

/-- `exception_promise<false>::rethrow_if_exception()` (lines 34-40).
`std::rethrow_exception(std::move(m_exception))` move-constructs the
by-value parameter from the slot, leaving the stored `exception_ptr` null.
Returns the raised exception (if any) together with the promise afterwards. -/
def rethrow_if_exc (p : ExcPromise ε) : Option ε × ExcPromise ε :=
  match p.m_exception with
  | some e => (some e, { m_exception := none })
  | none => (none, p)

/-! ## Task: result slot and the continuation race (task.hpp) -/

/-- `task_promise<T,false>`'s tagged result storage: the `result_type`
discriminator together with the union over `T m_value` /
`std::exception_ptr m_exception` (task.hpp lines 197-205). -/
inductive TResult (α ε : Type) where
  | empty
  | value (a : α)
  | exception (e : ε)
deriving DecidableEq

/-- Outcome observed by a consumer of a task. `broken` is the
`broken_promise` exception thrown by `await_resume` on an empty task;
`undef` marks the assertion-failure path (`result()` on an empty slot),
unreachable in the modelled runs. -/
inductive AwaitRes (α ε : Type) where
  | broken
  | ok (a : α)
  | err (e : ε)
  | undef
deriving DecidableEq

/-- `task_promise<T,false>::result() &` (task.hpp lines 160-170):
rethrows the stored exception (no move: `std::rethrow_exception(m_exception)`)
or returns a reference to the stored value.  The slot itself is not written,
so it is returned unchanged alongside the outcome. -/
def task_result (s : TResult α ε) : TResult α ε × AwaitRes α ε :=
  match s with
  | .exception e => (s, .err e)
  | .value a => (s, .ok a)
  | .empty => (s, .undef)

/-- `task_promise<void,false>::result()` (task.hpp lines 282-286):
`this->rethrow_if_exception()` on the `exception_promise<false>` mix-in. -/
def task_void_result (p : ExcPromise ε) : Option ε × ExcPromise ε :=
  rethrow_if_exc p

/-- `std::atomic<bool>::exchange(true, std::memory_order_acq_rel)`:
returns the prior value and stores `true` (task.hpp lines 63, 100). -/
def exchangeTrue (s : Bool) : Bool × Bool := (s, true)

/-- The state shared by the producer's completion and the consumer's
registration on the non-symmetric-transfer path: the atomic
`m_state` (task.hpp line 112, initialised `false` at line 77) and the
`m_continuation` handle (line 106); `κ` is the type of coroutine handles. -/
structure RaceState (κ : Type) where
  m_state : Bool
  m_continuation : Option κ

/-- `task_promise_base()` (task.hpp lines 75-79): `m_state(false)`,
no continuation registered yet. -/
def initRace : RaceState κ := { m_state := false, m_continuation := none }

/-- Producer side: `final_awaitable::await_suspend` (task.hpp lines 51-67).
`if (promise.m_state.exchange(true, acq_rel)) m_continuation.resume();`
The second component is the handle the producer resumed (`none` if it
performed no resume). -/
def producer_final_suspend (st : RaceState κ) : RaceState κ × Option κ :=
  let old_s := exchangeTrue st.m_state
  ({ st with m_state := old_s.2 }, if old_s.1 then st.m_continuation else none)

/-- Consumer side: `task_promise_base::try_set_continuation` (task.hpp
lines 97-101): writes `m_continuation` then returns
`!m_state.exchange(true, acq_rel)` — `true` means the registration won and
the awaiting coroutine stays suspended. -/
def try_set_continuation (st : RaceState κ) (k : κ) : RaceState κ × Bool :=
  let st1 := { st with m_continuation := some k }
  let old_s := exchangeTrue st1.m_state
  ({ st1 with m_state := old_s.2 }, !old_s.1)

/-- The tail of `task::awaitable_base::await_suspend` (task.hpp lines
357-377): after resuming the producer it returns
`try_set_continuation(awaitingCoroutine)`; returning `false` from a
bool-returning `await_suspend` immediately resumes the awaiting coroutine.
The second component is the handle resumed by the consumer side
(`none` when it actually suspends). -/
def consumer_register (st : RaceState κ) (k : κ) : RaceState κ × Option κ :=
  let st1_won := try_set_continuation st k
  (st1_won.1, if st1_won.2 then none else some k)

/-- The two linearisations of the race between the producer's completion
exchange and the consumer's registration exchange. -/
inductive RaceOrder where
  | producerFirst
  | consumerFirst
deriving DecidableEq

/-- Runs both atomic operations in the given order from the initial state
and lists every resume of the continuation that occurred, in order. -/
def raceResumes (o : RaceOrder) (k : κ) : List κ :=
  match o with
  | .producerFirst =>
      let p := producer_final_suspend initRace
      let c := consumer_register p.1 k
      p.2.toList ++ c.2.toList
  | .consumerFirst =>
      let c := consumer_register initRace k
      let p := producer_final_suspend c.1
      c.2.toList ++ p.2.toList

/-! ## Task wrapper (task.hpp lines 325-502): lazy start and broken promise -/

/-- A task coroutine body: runs side effects (numbered tags, recorded in a
trace), then returns a value or lets an exception escape.  `co_await` inside
the body is irrelevant to the claims modelled here. -/
inductive TaskBody (α ε : Type) where
  | ret (a : α)
  | throwE (e : ε)
  | eff (tag : Nat) (rest : TaskBody α ε)

/-- The task coroutine frame: suspended at `initial_suspend` (not started)
or run to completion (suspended at `final_suspend`). -/
inductive TFrame (α ε : Type) where
  | created (b : TaskBody α ε)
  | completed

/-- A task coroutine: frame, result slot, the atomic `m_state`, and the
trace of executed side effects. -/
structure TaskCoro (α ε : Type) where
  frame : TFrame α ε
  result : TResult α ε
  m_state : Bool
  trace : List Nat

/-- A `task` value holds a possibly-null `coroutine_handle<promise_type>`
(task.hpp line 500). -/
def TaskVal (α ε : Type) : Type := Option (TaskCoro α ε)

/-- `task()` (task.hpp lines 383-385): `m_coroutine(nullptr)`. -/
def task_default : TaskVal α ε := none

/-- Creating a task from a coroutine body: `get_return_object` wraps the
fresh handle and `initial_suspend` returns `suspend_always` (task.hpp lines
81-84), so the body has not run: empty slot, empty trace. -/
def task_make (b : TaskBody α ε) : TaskVal α ε :=
  some { frame := .created b, result := .empty, m_state := false, trace := [] }

/-- `task(task&&)` (task.hpp lines 391-395): the destination receives the
handle, the source is left with `nullptr`.  Returns (destination, source). -/
def task_moveFrom (t : TaskVal α ε) : TaskVal α ε × TaskVal α ε := (t, none)

/-- Runs a task body to completion, writing the result slot as
`return_value` / `unhandled_exception` do (task.hpp lines 143-158). -/
def taskRunBody : TaskBody α ε → TaskCoro α ε → TaskCoro α ε
  | .ret a, c => { c with frame := .completed, result := .value a }
  | .throwE e, c => { c with frame := .completed, result := .exception e }
  | .eff t r, c => taskRunBody r { c with trace := c.trace ++ [t] }

/-- `result()` dispatch used by `await_resume`. -/
def taskResultOf (c : TaskCoro α ε) : AwaitRes α ε := (task_result c.result).2

/-- `co_await t` for a task held by reference (task.hpp lines 435-457 with
`awaitable_base`, lines 336-379): `await_ready` is
`!m_coroutine || m_coroutine.done()`; if not ready, `await_suspend` resumes
the producer and tries to attach the continuation (here the producer runs to
completion synchronously, so the exchange pair resolves to "producer finished
first" and the consumer does not suspend); `await_resume` throws
`broken_promise` on a null handle and otherwise returns `promise().result()`. -/
def task_await (t : TaskVal α ε) : TaskVal α ε × AwaitRes α ε :=
  match t with
  | none => (none, .broken)
  | some c =>
    match c.frame with
    | .completed => (some c, taskResultOf c)
    | .created b =>
        let c1 := taskRunBody b c
        let pOut := producer_final_suspend (κ := Nat) { m_state := c1.m_state, m_continuation := none }
        let c2 := { c1 with m_state := pOut.1.m_state }
        let regOut := try_set_continuation { m_state := c2.m_state, m_continuation := none } 0
        let c3 := { c2 with m_state := regOut.1.m_state }
        (some c3, taskResultOf c3)

/-- Trace of executed side effects of a task value (empty for a null handle). -/
def taskTrace (t : TaskVal α ε) : List Nat :=
  match t with
  | none => []
  | some c => c.trace

/-! ## Generator (generator.hpp) -/

/-- A generator coroutine body: yields values, runs side effects, and ends
by returning or by letting an exception escape.  `co_await` is deleted
inside generator bodies (generator.hpp lines 63-64), so nothing else occurs. -/
inductive GenBody (α ε : Type) where
  | ret
  | throwE (e : ε)
  | yield (a : α) (rest : GenBody α ε)
  | eff (tag : Nat) (rest : GenBody α ε)

/-- The generator coroutine frame: suspended at `initial_suspend`
(generator.hpp line 35), suspended at a `co_yield` (lines 41-51), or done
(suspended at `final_suspend`). -/
inductive GenFrame (α ε : Type) where
  | suspInitial (b : GenBody α ε)
  | suspYield (b : GenBody α ε)
  | done

/-- A generator coroutine: frame, `m_value` (line 68), the
`exception_promise<false>` mix-in slot, and the executed-effect trace. -/
structure GenCoro (α ε : Type) where
  frame : GenFrame α ε
  m_value : Option α
  m_exception : Option ε
  trace : List Nat

/-- A `generator` value: possibly-null coroutine handle
(generator.hpp line 217). -/
def GenVal (α ε : Type) : Type := Option (GenCoro α ε)

/-- `generator()` (generator.hpp lines 159-161): null handle. -/
def generator_default : GenVal α ε := none

/-- `get_return_object` plus `initial_suspend` = `suspend_always`
(generator.hpp lines 33-35): a fresh suspended coroutine, body intact,
nothing executed. -/
def generator_make (b : GenBody α ε) : GenVal α ε :=
  some { frame := .suspInitial b, m_value := none, m_exception := none, trace := [] }

/-- `generator(generator&&)` (generator.hpp lines 163-167): returns
(destination, source-after-move). -/
def generator_moveFrom (g : GenVal α ε) : GenVal α ε × GenVal α ε := (g, none)

/-- Runs a generator body until its next suspension: a `co_yield` stores the
value and suspends (yield_value, lines 41-51); returning reaches
`final_suspend` (done); an escaping exception is captured by
`unhandled_exception` of the mix-in and the coroutine is done. -/
def genRunBody : GenBody α ε → GenCoro α ε → GenCoro α ε
  | .ret, c => { c with frame := .done }
  | .throwE e, c => { c with frame := .done, m_exception := some e }
  | .yield a rest, c => { c with frame := .suspYield rest, m_value := some a }
  | .eff t rest, c => genRunBody rest { c with trace := c.trace ++ [t] }

/-- `coroutine_handle::resume()` on a generator coroutine. -/
def genResume (c : GenCoro α ε) : GenCoro α ε :=
  match c.frame with
  | .suspInitial b => genRunBody b c
  | .suspYield b => genRunBody b c
  | .done => c

/-- `coroutine_handle::done()`. -/
def genDone (c : GenCoro α ε) : Bool :=
  match c.frame with
  | .done => true
  | _ => false

/-- `rethrow_if_exception` on the generator's promise (the mix-in):
returns the raised exception (if any) and the coroutine afterwards,
with the slot moved out. -/
def genRethrow (c : GenCoro α ε) : Option ε × GenCoro α ε :=
  match c.m_exception with
  | some e => (some e, { c with m_exception := none })
  | none => (none, c)

/-- `generator::begin()` (generator.hpp lines 185-197): on a non-null
handle, resume; if the coroutine is then done, rethrow any stored
exception; the returned iterator aliases the handle.  Output:
(generator state, exception raised out of `begin`). -/
def generator_begin (g : GenVal α ε) : GenVal α ε × Option ε :=
  match g with
  | none => (none, none)
  | some c =>
    let c1 := genResume c
    if genDone c1 then
      let ec := genRethrow c1
      (some ec.2, ec.1)
    else (some c1, none)

/-- `generator_iterator::operator==(generator_sentinel)` (generator.hpp
lines 98-101): `!it.m_coroutine || it.m_coroutine.done()`. -/
def generator_atEnd (g : GenVal α ε) : Bool :=
  match g with
  | none => true
  | some c => genDone c

/-- `generator_iterator::operator++` (generator.hpp lines 118-127):
resume; if done, rethrow any stored exception. -/
def generator_inc (c : GenCoro α ε) : GenCoro α ε × Option ε :=
  let c1 := genResume c
  if genDone c1 then
    let ec := genRethrow c1
    (ec.2, ec.1)
  else (c1, none)

/-- Fuel bound: structural size of a generator body. -/
def genSize : GenBody α ε → Nat
  | .ret => 1
  | .throwE _ => 1
  | .yield _ r => genSize r + 1
  | .eff _ r => genSize r + 1

/-- The consumer loop `for (it = g.begin(); it != g.end(); ++it) use(*it);`
factored around states "the coroutine was just resumed": check
done/rethrow (the tail of `begin`/`operator++`), otherwise collect `*it`
and resume again.  Returns the produced elements, the exception observed by
the consumer (if any), and the final coroutine state. -/
def genSession : Nat → GenCoro α ε → List α → (List α × Option ε) × GenCoro α ε
  | fuel, c, acc =>
    if genDone c then
      let ec := genRethrow c
      ((acc, ec.1), ec.2)
    else
      match c.m_value with
      | none => ((acc, none), c)
      | some a =>
        match fuel with
        | 0 => ((acc ++ [a], none), c)
        | fuel' + 1 => genSession fuel' (genResume c) (acc ++ [a])

/-- Full iteration of a freshly constructed generator through the iterator
protocol: elements produced in order, then the exception surfaced to the
consumer (if the body completed abnormally). -/
def generator_run (b : GenBody α ε) : List α × Option ε :=
  match generator_make (α := α) (ε := ε) b with
  | none => ([], none)
  | some c0 => (genSession (genSize b) (genResume c0) []).1

/-- Final coroutine state of the full iteration. -/
def generator_runState (b : GenBody α ε) : GenCoro α ε :=
  match generator_make (α := α) (ε := ε) b with
  | none => { frame := .done, m_value := none, m_exception := none, trace := [] }
  | some c0 => (genSession (genSize b) (genResume c0) []).2

/-- Trace of executed side effects of a generator value. -/
def genTrace (g : GenVal α ε) : List Nat :=
  match g with
  | none => []
  | some c => c.trace

/-- Denotation of a generator body, written from the specification:
the yielded elements in order, and the abnormal-completion failure if the
body ends by throwing. -/
def genSem : GenBody α ε → List α × Option ε
  | .ret => ([], none)
  | .throwE e => ([], some e)
  | .yield a r => ((a :: (genSem r).1, (genSem r).2))
  | .eff _ r => genSem r

/-! ## Recursive generator (exception_promise.hpp, second unit):
the promise chain as a heap of nodes -/

/-- A recursive-generator coroutine body: yield a value, yield an entire
nested `recursive_generator` (`none` models yielding a default-constructed/
moved-from generator whose `m_promise` is null), return, or throw. -/
inductive RBody (α ε : Type) where
  | ret
  | throwE (e : ε)
  | yield (a : α) (rest : RBody α ε)
  | yieldGen (sub : Option (RBody α ε)) (rest : RBody α ε)

/-- Frame of a recursive-generator coroutine: suspended at
`initial_suspend`, at a plain `co_yield`, inside the `yield_value`
awaitable for a nested generator (holding the child promise pointer), or
done. -/
inductive RFrame (α ε : Type) where
  | suspInitial (b : RBody α ε)
  | suspYield (b : RBody α ε)
  | suspNested (child : Nat) (b : RBody α ε)
  | done

/-- One `recursive_generator<T>::promise_type` (exception_promise.hpp lines
82-224): coroutine frame, `m_value`, the mix-in's `m_exception`, `m_root`
and `m_parentOrLeaf` as node indices into the heap. -/
structure RNode (α ε : Type) where
  frame : RFrame α ε
  val : Option α
  exc : Option ε
  root : Nat
  pol : Nat

/-- The arena of promise nodes; a node's id is its index. -/
abbrev RHeap (α ε : Type) : Type := List (RNode α ε)

/-- Reading a node (out-of-range reads return a dead node; never hit in the
modelled runs). -/
def rgGet : RHeap α ε → Nat → RNode α ε
  | [], _ => { frame := .done, val := none, exc := none, root := 0, pol := 0 }
  | n :: _, 0 => n
  | _ :: t, i + 1 => rgGet t i

/-- Writing a node in place. -/
def rgSet : RHeap α ε → Nat → RNode α ε → RHeap α ε
  | [], _, _ => []
  | _ :: t, 0, n => n :: t
  | m :: t, i + 1, n => m :: rgSet t i n

/-- Field update of one node. -/
def rgUpd (h : RHeap α ε) (i : Nat) (f : RNode α ε → RNode α ε) : RHeap α ε :=
  rgSet h i (f (rgGet h i))

/-- `promise_type::is_complete()` (lines 182-185). -/
def rgIsDone (h : RHeap α ε) (i : Nat) : Bool :=
  match (rgGet h i).frame with
  | .done => true
  | _ => false

/-- Runs node `self`'s coroutine body until its next suspension, exactly as
the compiled coroutine would.  A plain `co_yield v` stores the value and
suspends (`yield_value(T&&)`, lines 115-119).  `co_yield nested` runs
`yield_value(recursive_generator&)` (lines 126-171): a null nested generator
produces the ready `awaitable{nullptr}` and execution continues; otherwise a
fresh child promise is allocated (constructor lines 86-90), the three links
are wired (`m_root->m_parentOrLeaf = child; child->m_root = m_root;
child->m_parentOrLeaf = this`), the child is resumed in place, and if the
child completed immediately the leaf pointer is restored and execution
continues past the `co_yield` (with `awaitable{nullptr}`: no rethrow),
else `self` suspends inside `awaitable{child}`.  Returning reaches
`final_suspend`; a thrown exception is captured by the mix-in's
`unhandled_exception` and the coroutine completes. -/
def rgRunBody : RHeap α ε → Nat → RBody α ε → RHeap α ε
  | h, self, .ret => rgUpd h self (fun n => { n with frame := .done })
  | h, self, .throwE e => rgUpd h self (fun n => { n with frame := .done, exc := some e })
  | h, self, .yield a rest =>
      rgUpd h self (fun n => { n with frame := .suspYield rest, val := some a })
  | h, self, .yieldGen none rest => rgRunBody h self rest
  | h, self, .yieldGen (some sb) rest =>
      let c := h.length
      let r := (rgGet h self).root
      let h1 := h ++ [{ frame := .suspInitial sb, val := none, exc := none, root := c, pol := c }]
      let h2 := rgUpd h1 r (fun n => { n with pol := c })
      let h3 := rgUpd h2 c (fun n => { n with root := r, pol := self })
      let h4 := rgRunBody h3 c sb
      match (rgGet h4 c).frame with
      | .done =>
          let h5 := rgUpd h4 r (fun n => { n with pol := self })
          rgRunBody h5 self rest
      | _ => rgUpd h4 self (fun n => { n with frame := .suspNested c rest })

/-- `promise_type::resume()` (lines 210-213): resuming from a nested-yield
suspension first runs the awaitable's `await_resume` (lines 143-149), which
rethrows the child's captured exception if any — `rethrow_if_exception`
moves the child's slot out, and the rethrown exception escapes `self`'s
body and is captured by `self`'s own `unhandled_exception`. -/
def rgResume (h : RHeap α ε) (i : Nat) : RHeap α ε :=
  match (rgGet h i).frame with
  | .suspInitial b => rgRunBody h i b
  | .suspYield b => rgRunBody h i b
  | .suspNested c b =>
      match (rgGet h c).exc with
      | some e =>
          let h1 := rgUpd h c (fun n => { n with exc := none })
          rgUpd h1 i (fun n => { n with frame := .done, exc := some e })
      | none => rgRunBody h i b
  | .done => h

/-- The ascent loop of `promise_type::pull()` (lines 201-205):
`while (m_parentOrLeaf != this && m_parentOrLeaf->is_complete())
 { m_parentOrLeaf = m_parentOrLeaf->m_parentOrLeaf; m_parentOrLeaf->resume(); }` -/
def rgPullLoop : Nat → RHeap α ε → Nat → RHeap α ε
  | 0, h, _ => h
  | fuel + 1, h, r =>
      let leaf := (rgGet h r).pol
      if leaf ≠ r ∧ rgIsDone h leaf then
        let p := (rgGet h leaf).pol
        let h1 := rgUpd h r (fun n => { n with pol := p })
        let h2 := rgResume h1 p
        rgPullLoop fuel h2 r
      else h

/-- `promise_type::pull()` (lines 194-206): resume the current leaf, then
ascend while completed nodes are popped off the chain.  The loop performs at
most one ascent per chain node, so the heap size bounds the iterations. -/
def rgPull (h : RHeap α ε) (r : Nat) : RHeap α ε :=
  let h1 := rgResume h ((rgGet h r).pol)
  rgPullLoop h1.length h1 r

/-- `promise_type::value()` (lines 187-192): `*(m_parentOrLeaf->m_value)`
on the root. -/
def rgValue (h : RHeap α ε) (r : Nat) : Option α :=
  (rgGet h ((rgGet h r).pol)).val

/-- `rethrow_if_exception` on a promise node (the mix-in, moving the slot
out). -/
def rgRethrow (h : RHeap α ε) (i : Nat) : Option ε × RHeap α ε :=
  match (rgGet h i).exc with
  | some e => (some e, rgUpd h i (fun n => { n with exc := none }))
  | none => (none, h)

/-- `recursive_generator::begin()` (lines 334-348): on a non-null
`m_promise`, pull; if the root is not complete return `iterator(m_promise)`,
else rethrow any stored exception and return `iterator(nullptr)`.
Output: (heap, exception raised out of `begin`, iterator's promise). -/
def rgBegin (h : RHeap α ε) (mp : Option Nat) : RHeap α ε × Option ε × Option Nat :=
  match mp with
  | none => (h, none, none)
  | some r =>
      let h1 := rgPull h r
      if rgIsDone h1 r then
        let eh := rgRethrow h1 r
        (eh.2, eh.1, none)
      else (h1, none, some r)

/-- `recursive_generator::iterator::operator++` (lines 296-310): pull; if
the root is complete, null the iterator and rethrow any stored exception. -/
def rgInc (h : RHeap α ε) (r : Nat) : RHeap α ε × Option ε × Option Nat :=
  let h1 := rgPull h r
  if rgIsDone h1 r then
    let eh := rgRethrow h1 r
    (eh.2, eh.1, none)
  else (h1, none, some r)

/-- `iterator::operator==` (lines 286-289): compares the `m_promise`
pointers; `end()` is `iterator(nullptr)`. -/
def rg_iter_eq (x y : Option Nat) : Bool :=
  match x, y with
  | none, none => true
  | some a, some b => a == b
  | _, _ => false

/-- The external consumer loop over a recursive generator's iterator:
while the iterator is not `end()`, read `*it` and increment.  Collects the
elements and the exception surfaced to the consumer. -/
def rgLoop : Nat → RHeap α ε → Option Nat → List α → List α × Option ε
  | 0, _, _, acc => (acc, none)
  | fuel + 1, h, it, acc =>
      match it with
      | none => (acc, none)
      | some r =>
          match rgValue h r with
          | none => (acc, none)
          | some a =>
              let out := rgInc h r
              match out.2.1 with
              | some e => (acc ++ [a], some e)
              | none => rgLoop fuel out.1 out.2.2 (acc ++ [a])

/-- Fuel bound: structural size of a recursive body. -/
def rgSize : RBody α ε → Nat
  | .ret => 1
  | .throwE _ => 1
  | .yield _ r => rgSize r + 1
  | .yieldGen none r => rgSize r + 1
  | .yieldGen (some sb) r => rgSize sb + rgSize r + 1

/-- A one-node heap holding a freshly created root generator:
the promise constructor sets `m_root = this`, `m_parentOrLeaf = this`
(lines 86-90) and `initial_suspend` is `suspend_always`. -/
def rgInit (b : RBody α ε) : RHeap α ε :=
  [{ frame := .suspInitial b, val := none, exc := none, root := 0, pol := 0 }]

/-- Full iteration of a freshly constructed recursive generator through its
iterator protocol: elements observed by the external consumer in order, and
the exception surfaced to it (if any). -/
def rgRun (b : RBody α ε) : List α × Option ε :=
  let out := rgBegin (rgInit b) (some 0)
  match out.2.1 with
  | some e => ([], some e)
  | none => rgLoop (rgSize b + 1) out.1 out.2.2 []

/-- Whether a recursive body (including every nested body) is free of
throws. -/
def rgNoThrow : RBody α ε → Bool
  | .ret => true
  | .throwE _ => false
  | .yield _ r => rgNoThrow r
  | .yieldGen none r => rgNoThrow r
  | .yieldGen (some sb) r => rgNoThrow sb && rgNoThrow r

/-- Flattening denotation of a recursive body, written from the
specification: elements of a yielded nested sequence are spliced into the
parent's output in order at the yield point, recursively. -/
def flattenSpec : RBody α ε → List α
  | .ret => []
  | .throwE _ => []
  | .yield a r => a :: flattenSpec r
  | .yieldGen none r => flattenSpec r
  | .yieldGen (some sb) r => flattenSpec sb ++ flattenSpec r

/-- Runs a body down to its first produced element: `none` when the body
completes without yielding; otherwise the element, the body pending at the
node that yielded it, and the pending bodies of the nodes it descended
through on the way (innermost first). -/
def firstYield : RBody α ε → Option (α × RBody α ε × List (RBody α ε))
  | .ret => none
  | .throwE _ => none
  | .yield a rest => some (a, rest, [])
  | .yieldGen none rest => firstYield rest
  | .yieldGen (some sb) rest =>
      match firstYield sb with
      | some (a, hd, tl) => some (a, hd, tl ++ [rest])
      | none => firstYield rest

/-- One pull on the abstract pending-body stack (leaf first): run the leaf
to its first element, popping completed bodies. -/
def stepA : List (RBody α ε) → Option (α × List (RBody α ε))
  | [] => none
  | b :: bs =>
      match firstYield b with
      | some (a, hd, tl) => some (a, hd :: (tl ++ bs))
      | none => stepA bs

/-- Elements still pending on an abstract stack. -/
def flattenStack (s : List (RBody α ε)) : List α :=
  (s.map flattenSpec).flatten

/-! ## fmap adapters (generator.hpp lines 237-244, exception_promise.hpp
lines 376-383) -/

/-- Frame of the coroutine created by `fmap(func, generator<T>)`:
not yet started, suspended at the loop's `co_yield` holding the live source
iterator, or done. -/
inductive FmapFrame (α ε : Type) where
  | suspInitial
  | suspYield (it : GenCoro α ε)
  | done

/-- The `fmap` coroutine over a plain generator source: its own frame,
the captured `source` argument (used when the loop starts), `m_value` and
the mix-in's exception slot of the produced (plain) generator. -/
structure FmapCoro (α β ε : Type) where
  frame : FmapFrame α ε
  src0 : GenVal α ε
  m_value : Option β
  m_exception : Option ε

/-- Continuation of the `fmap` loop once the source has been advanced
(`(s1, e)` = source coroutine state and exception out of `begin`/`++`):
an exception escaping the loop is captured by the fmap promise; at the end
of the range the coroutine returns; otherwise it yields `func(*it)`. -/
def fmapNext (f : α → β) (c : FmapCoro α β ε) (s1 : GenCoro α ε) (e : Option ε) :
    FmapCoro α β ε :=
  match e with
  | some err => { c with frame := .done, m_exception := some err }
  | none =>
      if genDone s1 then { c with frame := .done }
      else
        match s1.m_value with
        | some a => { c with frame := .suspYield s1, m_value := some (f a) }
        | none => { c with frame := .done }

/-- Resuming the `fmap` coroutine: the first resume runs
`for (auto&& value : source)` — i.e. `source.begin()` — and the later
resumes run `++it`; each then either ends the loop, captures the escaping
exception, or executes `co_yield std::invoke(func, value)`. -/
def fmapResume (f : α → β) (c : FmapCoro α β ε) : FmapCoro α β ε :=
  match c.frame with
  | .done => c
  | .suspInitial =>
      let ge := generator_begin c.src0
      match ge.1 with
      | none => { c with frame := .done }
      | some s1 => fmapNext f c s1 ge.2
  | .suspYield s =>
      let se := generator_inc s
      fmapNext f c se.1 se.2

/-- `done()` on the fmap coroutine. -/
def fmapDone (c : FmapCoro α β ε) : Bool :=
  match c.frame with
  | .done => true
  | _ => false

/-- `rethrow_if_exception` on the fmap generator's promise. -/
def fmapRethrow (c : FmapCoro α β ε) : Option ε × FmapCoro α β ε :=
  match c.m_exception with
  | some e => (some e, { c with m_exception := none })
  | none => (none, c)

/-- Iterating the generator returned by `fmap` through the generator
protocol, in the just-resumed factoring of `genSession`. -/
def fmapSession : Nat → (α → β) → FmapCoro α β ε → List β → List β × Option ε
  | fuel, f, c, acc =>
      if fmapDone c then
        let ec := fmapRethrow c
        (acc, ec.1)
      else
        match c.m_value with
        | none => (acc, none)
        | some a =>
            match fuel with
            | 0 => (acc ++ [a], none)
            | fuel' + 1 => fmapSession fuel' f (fmapResume f c) (acc ++ [a])

/-- Full iteration of `fmap(func, source)` for a plain generator source
built from body `b`: the produced elements (already transformed) and the
exception surfaced to the consumer of the fmap generator. -/
def fmap_run (f : α → β) (b : GenBody α ε) : List β × Option ε :=
  let c0 : FmapCoro α β ε :=
    { frame := .suspInitial, src0 := generator_make b, m_value := none, m_exception := none }
  fmapSession (genSize b) f (fmapResume f c0) []

/-- Frame of the coroutine created by
`fmap(func, recursive_generator<T>)`: the source iterator is the root
promise pointer into the source heap. -/
inductive FmapRFrame where
  | suspInitial
  | suspYield (it : Option Nat)
  | done

/-- The `fmap` coroutine over a recursive-generator source: it owns the
source heap (the chain of source promises) alongside its own state.  Note
the adapter returns a plain, non-recursive generator. -/
structure FmapRCoro (α β ε : Type) where
  frame : FmapRFrame
  heap : RHeap α ε
  srcRoot : Option Nat
  m_value : Option β
  m_exception : Option ε

/-- Continuation of the recursive-source `fmap` loop after advancing the
iterator: `(h, e, it)` from `rgBegin` / `rgInc`. -/
def fmapRNext (f : α → β) (c : FmapRCoro α β ε) (h : RHeap α ε) (e : Option ε)
    (it : Option Nat) : FmapRCoro α β ε :=
  match e with
  | some err => { c with frame := .done, heap := h, m_exception := some err }
  | none =>
      match it with
      | none => { c with frame := .done, heap := h }
      | some r =>
          match rgValue h r with
          | some a => { c with frame := .suspYield (some r), heap := h, m_value := some (f a) }
          | none => { c with frame := .done, heap := h }

/-- Resuming the recursive-source `fmap` coroutine: first resume runs
`source.begin()`, later resumes run `++it`; each then ends the loop,
captures the escaping exception, or yields `func(*it)`. -/
def fmapRResume (f : α → β) (c : FmapRCoro α β ε) : FmapRCoro α β ε :=
  match c.frame with
  | .done => c
  | .suspInitial =>
      let out := rgBegin c.heap c.srcRoot
      fmapRNext f c out.1 out.2.1 out.2.2
  | .suspYield it =>
      match it with
      | none => { c with frame := .done }
      | some r =>
          let out := rgInc c.heap r
          fmapRNext f c out.1 out.2.1 out.2.2

/-- `done()` on the recursive-source fmap coroutine. -/
def fmapRDone (c : FmapRCoro α β ε) : Bool :=
  match c.frame with
  | .done => true
  | _ => false

/-- `rethrow_if_exception` on the produced generator's promise. -/
def fmapRRethrow (c : FmapRCoro α β ε) : Option ε × FmapRCoro α β ε :=
  match c.m_exception with
  | some e => (some e, { c with m_exception := none })
  | none => (none, c)

/-- Iterating the generator returned by the recursive-source `fmap`. -/
def fmapRSession : Nat → (α → β) → FmapRCoro α β ε → List β → List β × Option ε
  | fuel, f, c, acc =>
      if fmapRDone c then
        let ec := fmapRRethrow c
        (acc, ec.1)
      else
        match c.m_value with
        | none => (acc, none)
        | some a =>
            match fuel with
            | 0 => (acc ++ [a], none)
            | fuel' + 1 => fmapRSession fuel' f (fmapRResume f c) (acc ++ [a])

/-- Full iteration of `fmap(func, source)` for a recursive-generator source
built from body `b`. -/
def fmapR_run (f : α → β) (b : RBody α ε) : List β × Option ε :=
  let c0 : FmapRCoro α β ε :=
    { frame := .suspInitial, heap := rgInit b, srcRoot := some 0,
      m_value := none, m_exception := none }
  fmapRSession (rgSize b + 1) f (fmapRResume f c0) []

/-! ## Invariants relating the promise chain to the abstract pending stack -/

/-- `CtxInv h r m bs ps t`: starting at node `m`, following
`m_parentOrLeaf` upward visits the parent nodes `ps` (ending at `t` when
nonempty), and each parent is suspended inside a nested `co_yield` of its
child with pending body listed in `bs` (innermost parent first); all chain
nodes record `r` as their root and hold no captured exception, and every
pending body is throw-free. -/
inductive CtxInv (h : RHeap α ε) (r : Nat) : Nat → List (RBody α ε) → List Nat → Nat → Prop
  | nil (m : Nat) : CtxInv h r m [] [] m
  | cons (m p t : Nat) (b : RBody α ε) (bs : List (RBody α ε)) (ps : List Nat) :
      (rgGet h m).pol = p → p < h.length →
      (rgGet h p).frame = .suspNested m b →
      (rgGet h p).root = r → (rgGet h p).exc = none → rgNoThrow b = true →
      CtxInv h r p bs ps t →
      CtxInv h r m (b :: bs) (p :: ps) t

/-- The leaf node is about to run body `b`: suspended at `initial_suspend`
(first pull) or at a plain `co_yield` whose continuation is `b`. -/
def LeafAt (h : RHeap α ε) (l : Nat) (b : RBody α ε) : Prop :=
  (rgGet h l).frame = .suspInitial b ∨ (rgGet h l).frame = .suspYield b

/-- Well-formed mid-iteration configuration of a recursive-generator heap
with root `r`: the root points at the current leaf, the leaf is about to
run `b`, and the pending parents realise the abstract stack `bs`; chain
nodes are distinct, `r` occurs only at the top, and the chain fits in the
heap. -/
def Conf (h : RHeap α ε) (r : Nat) (b : RBody α ε) (bs : List (RBody α ε)) : Prop :=
  ∃ l ps,
    r < h.length ∧ l < h.length ∧
    (rgGet h r).root = r ∧ (rgGet h r).exc = none ∧
    (rgGet h r).pol = l ∧ LeafAt h l b ∧
    (rgGet h l).root = r ∧ (rgGet h l).exc = none ∧ rgNoThrow b = true ∧
    CtxInv h r l bs ps r ∧ (l :: ps).Nodup ∧
    bs.length + 1 ≤ h.length

/-- Postcondition of running body `b` at node `self` (with root `r`):
frame conditions on untouched nodes, preserved fields of `self` and `r`,
and the outcome — either the body completed without yielding (`doneCase`)
or it left a fresh chain segment below `self` realising the pending stack
of `firstYield` (`yieldCase`). -/
structure RBOut (h : RHeap α ε) (self r : Nat) (b : RBody α ε) (h2 : RHeap α ε) : Prop where
  len : h.length ≤ h2.length
  untouched : ∀ j, j < h.length → j ≠ self → j ≠ r → rgGet h2 j = rgGet h j
  rootRoot : (rgGet h2 r).root = (rgGet h r).root
  rootExc : (rgGet h2 r).exc = (rgGet h r).exc
  rootFrame : self ≠ r → (rgGet h2 r).frame = (rgGet h r).frame
  selfRoot : (rgGet h2 self).root = (rgGet h self).root
  selfExc : (rgGet h2 self).exc = (rgGet h self).exc
  selfPol : self ≠ r → (rgGet h2 self).pol = (rgGet h self).pol
  doneCase : firstYield b = none →
    (rgGet h2 self).frame = RFrame.done ∧ (rgGet h2 r).pol = self
  yieldCase : ∀ a hd tl, firstYield b = some (a, hd, tl) →
    ∃ l ps,
      (rgGet h2 r).pol = l ∧ l < h2.length ∧
      (rgGet h2 l).frame = RFrame.suspYield hd ∧ (rgGet h2 l).val = some a ∧
      (rgGet h2 l).root = r ∧ (rgGet h2 l).exc = none ∧ rgNoThrow hd = true ∧
      CtxInv h2 r l tl ps self ∧
      (l :: ps).Nodup ∧ (∀ j ∈ l :: ps, j = self ∨ h.length ≤ j) ∧
      tl.length + h.length ≤ h2.length ∧
      ((l = self ∧ tl = []) ∨ h.length ≤ l)

/-- The shared tail of `generator::begin` and `generator_iterator::operator++`
applied to a just-resumed coroutine: if it is done, rethrow any stored
exception; returns (coroutine afterwards, raised exception). -/
def genIncPack (d : GenCoro α ε) : GenCoro α ε × Option ε :=
  if genDone d then ((genRethrow d).2, (genRethrow d).1) else (d, none)

/-! ## Basic heap lemmas -/

theorem rgSet_length (h : RHeap α ε) (i : Nat) (n : RNode α ε) :
    (rgSet h i n).length = h.length := by
  induction h generalizing i with
  | nil => rfl
  | cons x t ih =>
      cases i with
      | zero => rfl
      | succ i => simpa [rgSet] using ih i

theorem rgUpd_length (h : RHeap α ε) (i : Nat) (f : RNode α ε → RNode α ε) :
    (rgUpd h i f).length = h.length := rgSet_length ..

theorem rgGet_rgSet_self (h : RHeap α ε) (i : Nat) (n : RNode α ε) (hi : i < h.length) :
    rgGet (rgSet h i n) i = n := by
  induction h generalizing i with
  | nil => simp at hi
  | cons x t ih =>
      cases i with
      | zero => rfl
      | succ i => exact ih i (by simpa using hi)

theorem rgGet_rgSet_ne (h : RHeap α ε) (i j : Nat) (n : RNode α ε) (hij : j ≠ i) :
    rgGet (rgSet h i n) j = rgGet h j := by
  induction h generalizing i j with
  | nil => rfl
  | cons x t ih =>
      cases i with
      | zero =>
          cases j with
          | zero => exact absurd rfl hij
          | succ j => rfl
      | succ i =>
          cases j with
          | zero => rfl
          | succ j => exact ih i j (by omega)

theorem rgGet_rgUpd_self (h : RHeap α ε) (i : Nat) (f : RNode α ε → RNode α ε)
    (hi : i < h.length) : rgGet (rgUpd h i f) i = f (rgGet h i) :=
  rgGet_rgSet_self h i _ hi

theorem rgGet_rgUpd_ne (h : RHeap α ε) (i j : Nat) (f : RNode α ε → RNode α ε)
    (hij : j ≠ i) : rgGet (rgUpd h i f) j = rgGet h j :=
  rgGet_rgSet_ne h i j _ hij

theorem rgGet_append_lt (h h2 : RHeap α ε) (j : Nat) (hj : j < h.length) :
    rgGet (h ++ h2) j = rgGet h j := by
  induction h generalizing j with
  | nil => simp at hj
  | cons x t ih =>
      cases j with
      | zero => rfl
      | succ j => exact ih j (by simpa using hj)

theorem rgGet_append_self (h : RHeap α ε) (n : RNode α ε) :
    rgGet (h ++ [n]) h.length = n := by
  induction h with
  | nil => rfl
  | cons x t ih => simpa using ih

/-! ## Generator iteration: session lemma -/

theorem genSize_pos (b : GenBody α ε) : 1 ≤ genSize b := by
  cases b <;> simp [genSize]

theorem genSession_unfold (fuel : Nat) (c : GenCoro α ε) (acc : List α) :
    genSession fuel c acc =
      if genDone c then ((acc, (genRethrow c).1), (genRethrow c).2)
      else
        match c.m_value with
        | none => ((acc, none), c)
        | some a =>
          match fuel with
          | 0 => ((acc ++ [a], none), c)
          | fuel' + 1 => genSession fuel' (genResume c) (acc ++ [a]) := by
  rw [genSession.eq_def]

theorem genSession_spec (b : GenBody α ε) :
    ∀ (fuel : Nat) (c : GenCoro α ε) (acc : List α),
      c.m_exception = none → genSize b ≤ fuel + 1 →
      (genSession fuel (genRunBody b c) acc).1 = (acc ++ (genSem b).1, (genSem b).2) := by
  induction b with
  | ret =>
      intro fuel c acc hexc _
      rw [show genRunBody GenBody.ret c = { c with frame := GenFrame.done } from rfl,
        genSession_unfold]
      simp [genDone, genRethrow, hexc, genSem]
  | throwE e =>
      intro fuel c acc hexc _
      rw [show genRunBody (GenBody.throwE e) c
          = { c with frame := GenFrame.done, m_exception := some e } from rfl,
        genSession_unfold]
      simp [genDone, genRethrow, genSem]
  | yield a r ih =>
      intro fuel c acc hexc hfuel
      have hsz : genSize r + 1 ≤ fuel + 1 := by simpa [genSize] using hfuel
      have hpos := genSize_pos r
      cases fuel with
      | zero => omega
      | succ fu =>
          have key : (genSession (fu + 1) (genRunBody (GenBody.yield a r) c) acc).1
              = (genSession fu
                  (genRunBody r { c with frame := GenFrame.suspYield r, m_value := some a })
                  (acc ++ [a])).1 := rfl
          rw [key,
            ih fu { c with frame := GenFrame.suspYield r, m_value := some a } (acc ++ [a])
              hexc (by omega)]
          simp [genSem]
  | eff t r ih =>
      intro fuel c acc hexc hfuel
      have hsz : genSize r + 1 ≤ fuel + 1 := by simpa [genSize] using hfuel
      have key : (genSession fuel (genRunBody (GenBody.eff t r) c) acc).1
          = (genSession fuel (genRunBody r { c with trace := c.trace ++ [t] }) acc).1 := rfl
      rw [key, ih fuel { c with trace := c.trace ++ [t] } acc hexc (by omega)]
      simp [genSem]

theorem generator_run_eq_sem (b : GenBody α ε) : generator_run b = genSem b := by
  have h := genSession_spec b (genSize b) ({ frame := .suspInitial b, m_value := none, m_exception := none, trace := [] } : GenCoro α ε) [] rfl (Nat.le_succ _)
  have key : generator_run b = (genSession (genSize b) (genRunBody b ({ frame := .suspInitial b, m_value := none, m_exception := none, trace := [] } : GenCoro α ε)) []).1 := by
    rw [show generator_run b = (genSession (genSize b) (genResume ({ frame := .suspInitial b, m_value := none, m_exception := none, trace := [] } : GenCoro α ε)) []).1 from rfl]
    rfl
  rw [key, h]
  simp

/-! ## Claim theorems: exception mix-in, task, race, generator -/

/-- C1: on the non-symmetric-transfer path, over both orderings of the race
between producer completion (`final_awaitable::await_suspend`'s exchange)
and consumer registration (`try_set_continuation`'s exchange), the
registered continuation is resumed exactly once — by the producer when the
consumer registered first, and by the consumer's non-suspension when the
producer finished first — the two detection paths being mutually exclusive
outcomes of the exchange. -/
theorem task_race_single_resume :
    (∀ (κ : Type) (o : RaceOrder) (k : κ), raceResumes o k = [k]) ∧
    (∀ (κ : Type) (k : κ),
      (producer_final_suspend (initRace (κ := κ))).2 = none ∧
      (consumer_register (producer_final_suspend (initRace (κ := κ))).1 k).2 = some k ∧
      (consumer_register (initRace (κ := κ)) k).2 = none ∧
      (producer_final_suspend (consumer_register (initRace (κ := κ)) k).1).2 = some k) := by
  constructor
  · intro κ o k
    cases o <;> rfl
  · intro κ k
    exact ⟨rfl, rfl, rfl, rfl⟩

/-- C3: awaiting a default-constructed task, or one left empty by a move,
hits `await_ready = true` (null handle) and `await_resume` throws
`broken_promise` right there — synchronously at the await point, with no
coroutine started (no side effect traced); construction and move themselves
signal nothing. -/
theorem task_broken_promise :
    (∀ (α ε : Type), task_await (task_default : TaskVal α ε) = (none, AwaitRes.broken)) ∧
    (∀ (α ε : Type) (t : TaskVal α ε),
      (task_moveFrom t).2 = none ∧
      task_await (task_moveFrom t).2 = (none, AwaitRes.broken)) ∧
    (∀ (α ε : Type), taskTrace (task_await (task_default : TaskVal α ε)).1 = []) := by
  refine ⟨fun α ε => rfl, fun α ε t => ⟨rfl, rfl⟩, fun α ε => rfl⟩

/-- C4 counterexample: after a failure is captured, the first
`rethrow_if_exception()` moves the stored `exception_ptr` out, so the
second call — which the claim says re-raises the same failure again —
raises nothing. -/
theorem rethrow_second_call_raises_nothing :
    (rethrow_if_exc (exc_unhandled ⟨none⟩ (5 : Nat))).1 = some 5 ∧
    (rethrow_if_exc (rethrow_if_exc (exc_unhandled ⟨none⟩ (5 : Nat))).2).1 = none := by
  exact ⟨rfl, rfl⟩

/-- C4 amended: `rethrow_if_exception()` is a no-op when no failure was
captured; when a failure was captured the first call re-raises it and
clears the slot (the rethrow moves the `exception_ptr` out), so calls after
the first are no-ops. -/
theorem rethrow_raises_once_then_clears :
    ∀ (ε : Type) (e : ε) (p : ExcPromise ε),
      rethrow_if_exc ({ m_exception := none } : ExcPromise ε)
          = (none, { m_exception := none }) ∧
      (rethrow_if_exc (exc_unhandled p e)).1 = some e ∧
      (rethrow_if_exc (exc_unhandled p e)).2 = { m_exception := none } ∧
      (rethrow_if_exc (rethrow_if_exc (exc_unhandled p e)).2).1 = none := by
  intro ε e p
  exact ⟨rfl, rfl, rfl, rfl⟩

/-- C5 counterexample: on the void specialization, `result()` is
`rethrow_if_exception()` on the mix-in, which moves the stored failure out;
the second call — which the claim says re-raises the same stored failure —
raises nothing. -/
theorem task_void_result_second_call_raises_nothing :
    (task_void_result (exc_unhandled ⟨none⟩ (7 : Nat))).1 = some 7 ∧
    (task_void_result (task_void_result (exc_unhandled ⟨none⟩ (7 : Nat))).2).1 = none := by
  exact ⟨rfl, rfl⟩

/-- C5 amended: for the non-void fallible task, `result()` never writes the
slot, so repeated calls return the same stored value or re-raise the same
stored failure every time; for the void specialization, the first
`result()` re-raises and clears the stored failure (the mix-in's rethrow
moves it out), so later calls return normally. -/
theorem task_result_idempotent_nonvoid :
    (∀ (α ε : Type) (s : TResult α ε),
      (task_result s).1 = s ∧
      task_result (task_result s).1 = task_result s) ∧
    (∀ (ε : Type) (e : ε) (p : ExcPromise ε),
      (task_void_result (exc_unhandled p e)).1 = some e ∧
      (task_void_result (task_void_result (exc_unhandled p e)).2).1 = none) := by
  constructor
  · intro α ε s
    cases s <;> exact ⟨rfl, rfl⟩
  · intro ε e p
    exact ⟨rfl, rfl⟩

/-- C8: construction is cold — `initial_suspend` is `suspend_always` for
both task and generator, so a freshly constructed value holds the whole
body unexecuted, with an empty effect trace and (for task) an empty result
slot; the first consumption (await / begin) is what runs effects. -/
theorem cold_construction :
    (∀ (α ε : Type) (b : GenBody α ε),
      generator_make b
        = some { frame := .suspInitial b, m_value := none, m_exception := none, trace := [] }) ∧
    (∀ (α ε : Type) (tb : TaskBody α ε),
      task_make tb
        = some { frame := .created tb, result := .empty, m_state := false, trace := [] }) ∧
    genTrace (generator_begin (generator_make
        (GenBody.eff 5 (GenBody.yield (1 : Nat) (GenBody.ret (α := Nat) (ε := Nat)))))).1 = [5] ∧
    taskTrace (task_await (task_make
        (TaskBody.eff 3 (TaskBody.ret (10 : Nat) (ε := Nat))))).1 = [3] := by
  exact ⟨fun α ε b => rfl, fun α ε tb => rfl, rfl, rfl⟩

/-- C10: `begin()` on a null-handle generator (default-constructed or
moved-from) skips the resume and returns `iterator(nullptr)`, which
compares equal to the end sentinel; nothing runs and nothing is raised —
likewise for a recursive generator with a null `m_promise`, whose heap of
promises is left untouched. -/
theorem begin_on_empty_generator :
    (∀ (α ε : Type), generator_begin (generator_default : GenVal α ε) = (none, none)) ∧
    (∀ (α ε : Type), generator_atEnd (generator_default : GenVal α ε) = true) ∧
    (∀ (α ε : Type) (g : GenVal α ε),
      (generator_moveFrom g).2 = none ∧
      generator_begin (generator_moveFrom g).2 = (none, none) ∧
      generator_atEnd (generator_begin (generator_moveFrom g).2).1 = true) ∧
    (∀ (α ε : Type) (h : RHeap α ε),
      rgBegin h none = (h, none, none) ∧
      rg_iter_eq (rgBegin h none).2.2 none = true) := by
  refine ⟨fun α ε => rfl, fun α ε => rfl, fun α ε g => ⟨rfl, rfl, rfl⟩, fun α ε h => ⟨rfl, rfl⟩⟩

/-- C6: the generator iteration protocol realises the body's denotation:
`begin()` runs to the first yield or completion, sentinel equality is
"handle null or coroutine done", incrementing resumes to the next yield or
completion and surfaces the stored failure exactly when the body completed
abnormally; the generator yielding 1,2,3 produces `[1,2,3]`, raises
nothing, and its final cursor compares equal to the end sentinel. -/
theorem generator_iteration_protocol :
    (∀ (α ε : Type) (b : GenBody α ε), generator_run b = genSem b) ∧
    (∀ (α ε : Type) (c : GenCoro α ε), generator_atEnd (some c) = genDone c) ∧
    (∀ (α ε : Type), generator_atEnd (generator_default : GenVal α ε) = true) ∧
    generator_run (GenBody.yield 1 (GenBody.yield 2 (GenBody.yield 3
        (GenBody.ret (α := Nat) (ε := Nat))))) = ([1, 2, 3], none) ∧
    generator_atEnd (some (generator_runState (GenBody.yield 1 (GenBody.yield 2
        (GenBody.yield 3 (GenBody.ret (α := Nat) (ε := Nat))))))) = true ∧
    generator_run (GenBody.yield 1 (GenBody.throwE 7) : GenBody Nat Nat) = ([1], some 7) := by
  refine ⟨fun α ε b => generator_run_eq_sem b, fun α ε c => rfl, fun α ε => rfl, ?_, ?_, ?_⟩
  · rfl
  · rfl
  · rfl

/-- C7 counterexample: a nested generator that fails before its first yield
completes during its immediate resume inside `yield_value`, which then
returns `awaitable{nullptr}` whose `await_resume` skips the rethrow — the
captured failure never surfaces (the consumer sees no error) and iteration
continues past the failure point (element 4 is still produced). -/
theorem nested_immediate_failure_dropped :
    rgRun (RBody.yield 1 (RBody.yieldGen (some (RBody.throwE 9))
        (RBody.yield 4 RBody.ret)) : RBody Nat Nat) = ([1, 4], none) := by
  rfl

/-- C7 amended: a failure raised in the nested chain after the failing
generator has yielded at least one value propagates up the chain and
surfaces to the external consumer exactly once, when the increment
operation observes completion of the outermost sequence: at depth 3 the
consumer observes the elements produced before the failure and iteration
halts, producing nothing after it. -/
theorem nested_failure_surfaces_at_root :
    rgRun (RBody.yield 1 (RBody.yieldGen
        (some (RBody.yield 2 (RBody.yieldGen
            (some (RBody.yield 3 (RBody.throwE 9)))
            (RBody.yield 99 RBody.ret))))
        (RBody.yield 100 RBody.ret)) : RBody Nat Nat) = ([1, 2, 3], some 9) := by
  rfl

/-! ## fmap over a plain generator: session lemma -/

theorem fmapSession_unfold (fuel : Nat) (f : α → β) (c : FmapCoro α β ε) (acc : List β) :
    fmapSession fuel f c acc =
      if fmapDone c then (acc, (fmapRethrow c).1)
      else
        match c.m_value with
        | none => (acc, none)
        | some a =>
          match fuel with
          | 0 => (acc ++ [a], none)
          | fuel' + 1 => fmapSession fuel' f (fmapResume f c) (acc ++ [a]) := by
  rw [fmapSession.eq_def]

theorem generator_inc_eq_pack (c : GenCoro α ε) :
    generator_inc c = genIncPack (genResume c) := rfl

theorem fmapSession_spec (b : GenBody α ε) :
    ∀ (f : α → β) (fuel : Nat) (s : GenCoro α ε) (c : FmapCoro α β ε) (acc : List β),
      s.m_exception = none → c.m_exception = none → genSize b ≤ fuel + 1 →
      fmapSession fuel f
          (fmapNext f c (genIncPack (genRunBody b s)).1 (genIncPack (genRunBody b s)).2) acc
        = (acc ++ ((genSem b).1.map f), (genSem b).2) := by
  induction b with
  | ret =>
      intro f fuel s c acc hs hc _
      have kd : genRunBody GenBody.ret s = { s with frame := GenFrame.done } := rfl
      rw [kd]
      have kp : genIncPack { s with frame := GenFrame.done }
          = ({ s with frame := GenFrame.done, m_exception := none }, (none : Option ε)) := by
        simp [genIncPack, genDone, genRethrow, hs]
      rw [kp]
      have kn : fmapNext f c { s with frame := GenFrame.done, m_exception := none } none
          = { c with frame := FmapFrame.done } := by
        simp [fmapNext, genDone]
      rw [kn, fmapSession_unfold]
      simp [fmapDone, fmapRethrow, hc, genSem]
  | throwE e =>
      intro f fuel s c acc hs hc _
      have kd : genRunBody (GenBody.throwE e) s
          = { s with frame := GenFrame.done, m_exception := some e } := rfl
      rw [kd]
      have kp : genIncPack { s with frame := GenFrame.done, m_exception := some e }
          = ({ s with frame := GenFrame.done, m_exception := none }, some e) := by
        simp [genIncPack, genDone, genRethrow]
      rw [kp]
      have kn : fmapNext f c { s with frame := GenFrame.done, m_exception := none } (some e)
          = { c with frame := FmapFrame.done, m_exception := some e } := rfl
      rw [kn, fmapSession_unfold]
      simp [fmapDone, fmapRethrow, genSem]
  | yield a r ih =>
      intro f fuel s c acc hs hc hfuel
      have hsz : genSize r + 1 ≤ fuel + 1 := by simpa [genSize] using hfuel
      have hpos := genSize_pos r
      have kd : genRunBody (GenBody.yield a r) s
          = { s with frame := GenFrame.suspYield r, m_value := some a } := rfl
      rw [kd]
      have kp : genIncPack { s with frame := GenFrame.suspYield r, m_value := some a }
          = ({ s with frame := GenFrame.suspYield r, m_value := some a }, (none : Option ε)) := by
        simp [genIncPack, genDone]
      rw [kp]
      have kn : fmapNext f c { s with frame := GenFrame.suspYield r, m_value := some a } none
          = { c with frame := FmapFrame.suspYield { s with frame := GenFrame.suspYield r, m_value := some a }, m_value := some (f a) } := by
        simp [fmapNext, genDone]
      rw [kn]
      cases fuel with
      | zero => omega
      | succ fu =>
          have key : fmapSession (fu + 1) f { c with frame := FmapFrame.suspYield { s with frame := GenFrame.suspYield r, m_value := some a }, m_value := some (f a) } acc
              = fmapSession fu f (fmapResume f { c with frame := FmapFrame.suspYield { s with frame := GenFrame.suspYield r, m_value := some a }, m_value := some (f a) }) (acc ++ [f a]) := rfl
          have kres : fmapResume f { c with frame := FmapFrame.suspYield { s with frame := GenFrame.suspYield r, m_value := some a }, m_value := some (f a) }
              = fmapNext f { c with m_value := some (f a) }
                  (genIncPack (genRunBody r { s with frame := GenFrame.suspYield r, m_value := some a })).1
                  (genIncPack (genRunBody r { s with frame := GenFrame.suspYield r, m_value := some a })).2 := rfl
          rw [key, kres, ih f fu { s with frame := GenFrame.suspYield r, m_value := some a }
            { c with m_value := some (f a) } (acc ++ [f a]) hs hc (by omega)]
          simp [genSem]
  | eff t r ih =>
      intro f fuel s c acc hs hc hfuel
      have hsz : genSize r + 1 ≤ fuel + 1 := by simpa [genSize] using hfuel
      have kd : genRunBody (GenBody.eff t r) s
          = genRunBody r { s with trace := s.trace ++ [t] } := rfl
      rw [kd, ih f fuel { s with trace := s.trace ++ [t] } c acc hs hc (by omega)]
      simp [genSem]

theorem fmap_run_eq_map (f : α → β) (b : GenBody α ε) :
    fmap_run f b = (((genSem b).1).map f, (genSem b).2) := by
  have hsrc : fmapResume f ({ frame := .suspInitial, src0 := generator_make b, m_value := none, m_exception := none } : FmapCoro α β ε)
      = fmapNext f ({ frame := .suspInitial, src0 := generator_make b, m_value := none, m_exception := none } : FmapCoro α β ε)
          (genIncPack (genRunBody b ({ frame := .suspInitial b, m_value := none, m_exception := none, trace := [] } : GenCoro α ε))).1
          (genIncPack (genRunBody b ({ frame := .suspInitial b, m_value := none, m_exception := none, trace := [] } : GenCoro α ε))).2 := by
    cases hgd : genDone (genRunBody b ({ frame := .suspInitial b, m_value := none, m_exception := none, trace := [] } : GenCoro α ε)) with
    | true => simp [fmapResume, generator_make, generator_begin, genIncPack, genResume, hgd]
    | false => simp [fmapResume, generator_make, generator_begin, genIncPack, genResume, hgd]
  have key : fmap_run f b = fmapSession (genSize b) f (fmapResume f ({ frame := .suspInitial, src0 := generator_make b, m_value := none, m_exception := none } : FmapCoro α β ε)) [] := rfl
  rw [key, hsrc, fmapSession_spec b f (genSize b)
    ({ frame := .suspInitial b, m_value := none, m_exception := none, trace := [] } : GenCoro α ε)
    ({ frame := .suspInitial, src0 := generator_make b, m_value := none, m_exception := none } : FmapCoro α β ε)
    [] rfl rfl (Nat.le_succ _)]
  simp

/-! ## Chain-invariant lemmas -/

theorem CtxInv_nil_inv (h : RHeap α ε) (r m t : Nat) (ps : List Nat)
    (hc : CtxInv h r m [] ps t) : m = t ∧ ps = [] := by
  cases hc
  exact ⟨rfl, rfl⟩

theorem CtxInv_length (h : RHeap α ε) (r m t : Nat) (bs : List (RBody α ε)) (ps : List Nat)
    (hc : CtxInv h r m bs ps t) : ps.length = bs.length := by
  induction hc with
  | nil _ => rfl
  | cons m p t b bs ps _ _ _ _ _ _ _ ih => simpa using ih

theorem CtxInv_mem_lt (h : RHeap α ε) (r m t : Nat) (bs : List (RBody α ε)) (ps : List Nat)
    (hc : CtxInv h r m bs ps t) : ∀ j, j ∈ ps → j < h.length := by
  induction hc with
  | nil _ => intro j hj; simp at hj
  | cons m p t b bs ps _ hlt _ _ _ _ _ ih =>
      intro j hj
      rcases List.mem_cons.mp hj with hj | hj
      · exact hj ▸ hlt
      · exact ih j hj

theorem CtxInv_mem_top (h : RHeap α ε) (r m t : Nat) (bs : List (RBody α ε)) (ps : List Nat)
    (hc : CtxInv h r m bs ps t) : bs ≠ [] → t ∈ ps := by
  induction hc with
  | nil _ => intro hne; exact absurd rfl hne
  | cons m p t b bs ps _ _ _ _ _ _ hrest ih =>
      intro _
      cases bs with
      | nil =>
          rcases CtxInv_nil_inv _ _ _ _ _ hrest with ⟨hpt, _⟩
          exact hpt ▸ List.mem_cons_self _ _
      | cons b2 bs2 =>
          exact List.mem_cons_of_mem _ (ih (by simp))

theorem CtxInv_top_frame (h : RHeap α ε) (r m t : Nat) (bs : List (RBody α ε)) (ps : List Nat)
    (hc : CtxInv h r m bs ps t) :
    bs ≠ [] → ∃ m2 b2, (rgGet h t).frame = RFrame.suspNested m2 b2 := by
  induction hc with
  | nil _ => intro hne; exact absurd rfl hne
  | cons m p t b bs ps _ _ hframe _ _ _ hrest ih =>
      intro _
      cases bs with
      | nil =>
          rcases CtxInv_nil_inv _ _ _ _ _ hrest with ⟨hpt, _⟩
          exact ⟨m, b, hpt ▸ hframe⟩
      | cons b2 bs2 => exact ih (by simp)

theorem CtxInv_append (h : RHeap α ε) (r : Nat) (m mid t : Nat)
    (bs1 bs2 : List (RBody α ε)) (ps1 ps2 : List Nat)
    (h1 : CtxInv h r m bs1 ps1 mid) (h2 : CtxInv h r mid bs2 ps2 t) :
    CtxInv h r m (bs1 ++ bs2) (ps1 ++ ps2) t := by
  induction h1 with
  | nil _ => simpa using h2
  | cons m p t0 b bs ps hpol hlt hframe hroot hexc hnt hrest ih =>
      exact CtxInv.cons m p t b (bs ++ bs2) (ps ++ ps2) hpol hlt hframe hroot hexc hnt (ih h2)

theorem CtxInv_snoc (h : RHeap α ε) (r : Nat) (m t p : Nat) (b : RBody α ε)
    (bs : List (RBody α ε)) (ps : List Nat)
    (hc : CtxInv h r m bs ps t)
    (hpol : (rgGet h t).pol = p) (hlt : p < h.length)
    (hframe : (rgGet h p).frame = RFrame.suspNested t b)
    (hroot : (rgGet h p).root = r) (hexc : (rgGet h p).exc = none)
    (hnt : rgNoThrow b = true) :
    CtxInv h r m (bs ++ [b]) (ps ++ [p]) p :=
  CtxInv_append h r m t p bs [b] ps [p] hc
    (CtxInv.cons t p p b [] [] hpol hlt hframe hroot hexc hnt (CtxInv.nil p))

theorem CtxInv_transport (h h2 : RHeap α ε) (r : Nat)
    (m t : Nat) (bs : List (RBody α ε)) (ps : List Nat)
    (hc : CtxInv h r m bs ps t) :
    ps.Nodup →
    (rgGet h2 m).pol = (rgGet h m).pol →
    (∀ j, j ∈ ps → j ≠ t → rgGet h2 j = rgGet h j) →
    (rgGet h2 t).frame = (rgGet h t).frame →
    (rgGet h2 t).root = (rgGet h t).root →
    (rgGet h2 t).exc = (rgGet h t).exc →
    h.length ≤ h2.length →
    CtxInv h2 r m bs ps t := by
  induction hc with
  | nil m => intro _ _ _ _ _ _ _; exact CtxInv.nil m
  | cons m p t b bs ps hpol hlt hframe hroot hexc hnt hrest ih =>
      intro hnd hm hmem htf htr hte hlen
      by_cases hpt : p = t
      · subst hpt
        have hbs : bs = [] := by
          cases bs with
          | nil => rfl
          | cons b2 bs2 =>
              have hmem2 : p ∈ ps := CtxInv_mem_top h r p p _ ps hrest (by simp)
              have : p ∉ ps := (List.nodup_cons.mp hnd).1
              exact absurd hmem2 this
        subst hbs
        rcases CtxInv_nil_inv _ _ _ _ _ hrest with ⟨_, hps⟩
        subst hps
        exact CtxInv.cons m p p b [] [] (hm ▸ hpol) (Nat.lt_of_lt_of_le hlt hlen)
          (htf ▸ hframe) (htr ▸ hroot) (hte ▸ hexc) hnt (CtxInv.nil p)
      · have hpfull : rgGet h2 p = rgGet h p := hmem p (List.mem_cons_self _ _) hpt
        refine CtxInv.cons m p t b bs ps (hm ▸ hpol) (Nat.lt_of_lt_of_le hlt hlen)
          (hpfull ▸ hframe) (hpfull ▸ hroot) (hpfull ▸ hexc) hnt ?_
        exact ih (List.nodup_cons.mp hnd).2 (by rw [hpfull])
          (fun j hj hjt => hmem j (List.mem_cons_of_mem _ hj) hjt) htf htr hte hlen

/-! ## Abstract-stack lemmas -/

theorem rgSize_pos (b : RBody α ε) : 1 ≤ rgSize b := by
  cases b with
  | ret => simp [rgSize]
  | throwE e => simp [rgSize]
  | yield a r => simp [rgSize]
  | yieldGen sub r => cases sub <;> simp [rgSize]

theorem flattenStack_append (s1 s2 : List (RBody α ε)) :
    flattenStack (s1 ++ s2) = flattenStack s1 ++ flattenStack s2 := by
  simp [flattenStack]

theorem firstYield_none_flatten :
    ∀ (n : Nat) (b : RBody α ε), rgSize b ≤ n → firstYield b = none →
      flattenSpec b = [] := by
  intro n
  induction n with
  | zero => intro b hb; have := rgSize_pos b; omega
  | succ n ih =>
      intro b hb hfy
      cases b with
      | ret => rfl
      | throwE e => rfl
      | yield a r => simp [firstYield] at hfy
      | yieldGen sub r =>
          cases sub with
          | none =>
              have hsz : rgSize r ≤ n := by simp [rgSize] at hb; omega
              have : firstYield r = none := hfy
              simp [flattenSpec, ih r hsz this]
          | some sb =>
              have hszs : rgSize sb ≤ n := by simp [rgSize] at hb; omega
              have hszr : rgSize r ≤ n := by simp [rgSize] at hb; omega
              cases hsb : firstYield sb with
              | some v =>
                  rw [show firstYield (RBody.yieldGen (some sb) r)
                      = some (v.1, v.2.1, v.2.2 ++ [r]) from by
                    simp [firstYield, hsb]] at hfy
                  simp at hfy
              | none =>
                  have hfr : firstYield r = none := by
                    rw [show firstYield (RBody.yieldGen (some sb) r)
                        = firstYield r from by simp [firstYield, hsb]] at hfy
                    exact hfy
                  simp [flattenSpec, ih sb hszs hsb, ih r hszr hfr]

theorem firstYield_some_flatten :
    ∀ (n : Nat) (b : RBody α ε), rgSize b ≤ n →
      ∀ (a : α) (hd : RBody α ε) (tl : List (RBody α ε)),
        firstYield b = some (a, hd, tl) →
        flattenSpec b = a :: flattenStack (hd :: tl) := by
  intro n
  induction n with
  | zero => intro b hb; have := rgSize_pos b; omega
  | succ n ih =>
      intro b hb a hd tl hfy
      cases b with
      | ret => simp [firstYield] at hfy
      | throwE e => simp [firstYield] at hfy
      | yield a0 r =>
          simp [firstYield] at hfy
          rcases hfy with ⟨ha, hh, ht⟩
          subst ha; subst hh; subst ht
          simp [flattenSpec, flattenStack]
      | yieldGen sub r =>
          cases sub with
          | none =>
              have hsz : rgSize r ≤ n := by simp [rgSize] at hb; omega
              have hfr : firstYield r = some (a, hd, tl) := hfy
              simpa [flattenSpec] using ih r hsz a hd tl hfr
          | some sb =>
              have hszs : rgSize sb ≤ n := by simp [rgSize] at hb; omega
              have hszr : rgSize r ≤ n := by simp [rgSize] at hb; omega
              cases hsb : firstYield sb with
              | some v =>
                  rw [show firstYield (RBody.yieldGen (some sb) r)
                      = some (v.1, v.2.1, v.2.2 ++ [r]) from by
                    simp [firstYield, hsb]] at hfy
                  have hv : v = (a, hd, tl.dropLast) ∧ tl = v.2.2 ++ [r] := by
                    have h1 : v.1 = a ∧ v.2.1 = hd ∧ v.2.2 ++ [r] = tl := by
                      simpa using hfy
                    rcases h1 with ⟨ha, hh, ht⟩
                    constructor
                    · have : v.2.2 = tl.dropLast := by
                        rw [show tl = v.2.2 ++ [r] from ht.symm]
                        simp
                      rcases v with ⟨v1, v2, v3⟩
                      simp_all
                    · exact ht.symm
                  rcases hv with ⟨hv1, hv2⟩
                  have hflat := ih sb hszs v.1 v.2.1 v.2.2 hsb
                  rw [show flattenSpec (RBody.yieldGen (some sb) r)
                      = flattenSpec sb ++ flattenSpec r from rfl, hflat, hv2]
                  rcases v with ⟨v1, v2, v3⟩
                  simp at hv1
                  rcases hv1 with ⟨ha, hh, _⟩
                  subst ha; subst hh
                  simp [flattenStack_append, flattenStack]
              | none =>
                  have hfr : firstYield r = some (a, hd, tl) := by
                    rw [show firstYield (RBody.yieldGen (some sb) r)
                        = firstYield r from by simp [firstYield, hsb]] at hfy
                    exact hfy
                  have hempty := firstYield_none_flatten (rgSize sb) sb (Nat.le_refl _) hsb
                  rw [show flattenSpec (RBody.yieldGen (some sb) r)
                      = flattenSpec sb ++ flattenSpec r from rfl, hempty,
                    ih r hszr a hd tl hfr]
                  simp

theorem stepA_none_flatten :
    ∀ (s : List (RBody α ε)), stepA s = none → flattenStack s = [] := by
  intro s
  induction s with
  | nil => intro _; rfl
  | cons b bs ih =>
      intro hs
      cases hsb : firstYield b with
      | some v => simp [stepA, hsb] at hs
      | none =>
          have hbs : stepA bs = none := by
            rw [show stepA (b :: bs) = stepA bs from by simp [stepA, hsb]] at hs
            exact hs
          have hb := firstYield_none_flatten (rgSize b) b (Nat.le_refl _) hsb
          rw [show flattenStack (b :: bs) = flattenSpec b ++ flattenStack bs from by
            simp [flattenStack], hb, ih hbs]
          rfl

theorem stepA_some_flatten :
    ∀ (s : List (RBody α ε)) (a : α) (s2 : List (RBody α ε)),
      stepA s = some (a, s2) → flattenStack s = a :: flattenStack s2 := by
  intro s
  induction s with
  | nil => intro a s2 hs; simp [stepA] at hs
  | cons b bs ih =>
      intro a s2 hs
      cases hsb : firstYield b with
      | some v =>
          rw [show stepA (b :: bs) = some (v.1, v.2.1 :: (v.2.2 ++ bs)) from by
            simp [stepA, hsb]] at hs
          have hv : v.1 = a ∧ v.2.1 :: (v.2.2 ++ bs) = s2 := by simpa using hs
          rcases hv with ⟨ha, hs2⟩
          have hb := firstYield_some_flatten (rgSize b) b (Nat.le_refl _) v.1 v.2.1 v.2.2
            (by rcases v with ⟨v1, v2, v3⟩; exact hsb)
          rw [show flattenStack (b :: bs) = flattenSpec b ++ flattenStack bs from by
            simp [flattenStack], hb, ← hs2, ← ha]
          simp [flattenStack, flattenStack_append]
      | none =>
          have hbs : stepA bs = some (a, s2) := by
            rw [show stepA (b :: bs) = stepA bs from by simp [stepA, hsb]] at hs
            exact hs
          have hb := firstYield_none_flatten (rgSize b) b (Nat.le_refl _) hsb
          rw [show flattenStack (b :: bs) = flattenSpec b ++ flattenStack bs from by
            simp [flattenStack], hb, ih a s2 hbs]
          simp

theorem rgRunBody_spec :
    ∀ (n : Nat) (b : RBody α ε) (h : RHeap α ε) (self r : Nat),
      rgSize b ≤ n →
      rgNoThrow b = true →
      self < h.length → r < h.length →
      (rgGet h self).root = r → (rgGet h r).pol = self → (rgGet h r).root = r →
      (rgGet h self).exc = none →
      RBOut h self r b (rgRunBody h self b) := by
  intro n
  induction n with
  | zero => intro b _ _ _ hb; have := rgSize_pos b; omega
  | succ n ih =>
      intro b h self r hsz hnt hselflt hrlt hsroot hrpol hrroot hsexc
      cases b with
      | throwE e => simp [rgNoThrow] at hnt
      | ret =>
          have hg2self : rgGet (rgRunBody h self RBody.ret) self
              = { rgGet h self with frame := RFrame.done } :=
            rgGet_rgUpd_self h self _ hselflt
          have hg2ne : ∀ j, j ≠ self → rgGet (rgRunBody h self RBody.ret) j = rgGet h j :=
            fun j hj => rgGet_rgUpd_ne h self j _ hj
          have hg2r_pol : (rgGet (rgRunBody h self RBody.ret) r).pol = self := by
            by_cases hsr : r = self
            · subst hsr; rw [hg2self]; exact hrpol
            · rw [hg2ne r hsr]; exact hrpol
          refine ⟨?_, ?_, ?_, ?_, ?_, ?_, ?_, ?_, ?_, ?_⟩
          · show h.length ≤ (rgUpd h self _).length
            rw [rgUpd_length]
          · intro j _ hjs _; exact hg2ne j hjs
          · by_cases hsr : r = self
            · subst hsr; rw [hg2self]
            · rw [hg2ne r hsr]
          · by_cases hsr : r = self
            · subst hsr; rw [hg2self]
            · rw [hg2ne r hsr]
          · intro hne; rw [hg2ne r (fun hh => hne hh.symm)]
          · rw [hg2self]
          · rw [hg2self]
          · intro _; rw [hg2self]
          · intro _; exact ⟨by rw [hg2self], hg2r_pol⟩
          · intro a hd tl hfy; simp [firstYield] at hfy
      | yield a0 rest =>
          have hg2self : rgGet (rgRunBody h self (RBody.yield a0 rest)) self
              = { rgGet h self with frame := RFrame.suspYield rest, val := some a0 } :=
            rgGet_rgUpd_self h self _ hselflt
          have hg2ne : ∀ j, j ≠ self →
              rgGet (rgRunBody h self (RBody.yield a0 rest)) j = rgGet h j :=
            fun j hj => rgGet_rgUpd_ne h self j _ hj
          have hg2r_pol : (rgGet (rgRunBody h self (RBody.yield a0 rest)) r).pol = self := by
            by_cases hsr : r = self
            · subst hsr; rw [hg2self]; exact hrpol
            · rw [hg2ne r hsr]; exact hrpol
          have hlen2 : (rgRunBody h self (RBody.yield a0 rest)).length = h.length :=
            rgUpd_length h self _
          refine ⟨?_, ?_, ?_, ?_, ?_, ?_, ?_, ?_, ?_, ?_⟩
          · rw [hlen2]
          · intro j _ hjs _; exact hg2ne j hjs
          · by_cases hsr : r = self
            · subst hsr; rw [hg2self]
            · rw [hg2ne r hsr]
          · by_cases hsr : r = self
            · subst hsr; rw [hg2self]
            · rw [hg2ne r hsr]
          · intro hne; rw [hg2ne r (fun hh => hne hh.symm)]
          · rw [hg2self]
          · rw [hg2self]
          · intro _; rw [hg2self]
          · intro hfy; simp [firstYield] at hfy
          · intro a hd tl hfy
            have hv : a0 = a ∧ rest = hd ∧ ([] : List (RBody α ε)) = tl := by
              simpa [firstYield] using hfy
            rcases hv with ⟨ha, hh, ht⟩
            subst ha; subst hh; subst ht
            refine ⟨self, [], hg2r_pol, by rw [hlen2]; exact hselflt, by rw [hg2self],
              by rw [hg2self], ?_, ?_, hnt, CtxInv.nil self, by simp, ?_, ?_, Or.inl ⟨rfl, rfl⟩⟩
            · rw [hg2self]; exact hsroot
            · rw [hg2self]; exact hsexc
            · intro j hj; simp at hj; exact Or.inl hj
            · rw [hlen2]; simp
      | yieldGen sub rest =>
          cases sub with
          | none =>
              have hszr : rgSize rest ≤ n := by simp [rgSize] at hsz; omega
              obtain ⟨l1, l2, l3, l4, l5, l6, l7, l8, l9, l10⟩ :=
                ih rest h self r hszr hnt hselflt hrlt hsroot hrpol hrroot hsexc
              exact ⟨l1, l2, l3, l4, l5, l6, l7, l8, l9, l10⟩
          | some sb =>
              have hnts : rgNoThrow sb = true ∧ rgNoThrow rest = true := by
                simpa [rgNoThrow, Bool.and_eq_true] using hnt
              have hszs : rgSize sb ≤ n := by simp [rgSize] at hsz; omega
              have hszr : rgSize rest ≤ n := by simp [rgSize] at hsz; omega
              simp only [rgRunBody]
              rw [hsroot]
              set h3 := rgUpd (rgUpd (h ++ [{ frame := RFrame.suspInitial sb, val := none, exc := none, root := h.length, pol := h.length }]) r (fun n0 => { n0 with pol := h.length })) h.length (fun n0 => { n0 with root := r, pol := self }) with hh3
              have hlen3 : h3.length = h.length + 1 := by
                rw [hh3, rgUpd_length, rgUpd_length]; simp
              have hg3c : rgGet h3 h.length
                  = { frame := RFrame.suspInitial sb, val := none, exc := none,
                      root := r, pol := self } := by
                rw [hh3, rgGet_rgUpd_self _ _ _ (by rw [rgUpd_length]; simp),
                  rgGet_rgUpd_ne _ _ _ _ (by omega), rgGet_append_self]
              have hg3r : rgGet h3 r = { rgGet h r with pol := h.length } := by
                rw [hh3, rgGet_rgUpd_ne _ _ _ _ (by omega),
                  rgGet_rgUpd_self _ _ _ (by simp; omega), rgGet_append_lt _ _ _ hrlt]
              have hg3other : ∀ j, j < h.length → j ≠ r → rgGet h3 j = rgGet h j := by
                intro j hj hjr
                rw [hh3, rgGet_rgUpd_ne _ _ _ _ (by omega), rgGet_rgUpd_ne _ _ _ _ hjr,
                  rgGet_append_lt _ _ _ hj]
              obtain ⟨O4len, O4unt, O4rr, O4re, O4rf, O4sr, O4se, O4sp, O4done, O4yield⟩ :=
                ih sb h3 h.length r hszs hnts.1 (by omega) (by omega)
                  (by rw [hg3c]) (by rw [hg3r]) (by rw [hg3r]; exact hrroot)
                  (by rw [hg3c])
              have hlen4 : h.length + 1 ≤ (rgRunBody h3 h.length sb).length := by
                rw [← hlen3]; exact O4len
              set h4 := rgRunBody h3 h.length sb with hh4
              have hself_ne_c : self ≠ h.length := by omega
              have hr_ne_c : h.length ≠ r := by omega
              have hself3root : (rgGet h3 self).root = r := by
                by_cases hsr : self = r
                · rw [hsr, hg3r]; exact hrroot
                · rw [hg3other self hselflt hsr]; exact hsroot
              have hself3exc : (rgGet h3 self).exc = none := by
                by_cases hsr : self = r
                · rw [hsr] at hsexc ⊢; rw [hg3r]; exact hsexc
                · rw [hg3other self hselflt hsr]; exact hsexc
              have hself4root : (rgGet h4 self).root = r := by
                by_cases hsr : self = r
                · rw [hsr] at hself3root ⊢; rw [O4rr]; exact hself3root
                · rw [O4unt self (by omega) hself_ne_c hsr]; exact hself3root
              have hself4exc : (rgGet h4 self).exc = none := by
                by_cases hsr : self = r
                · rw [hsr] at hself3exc ⊢; rw [O4re]; exact hself3exc
                · rw [O4unt self (by omega) hself_ne_c hsr]; exact hself3exc
              have hg4c_pol : (rgGet h4 h.length).pol = self := by
                rw [O4sp hr_ne_c, hg3c]
              have hg4c_root : (rgGet h4 h.length).root = r := by
                rw [O4sr, hg3c]
              cases hsbfy : firstYield sb with
              | none =>
                  obtain ⟨hcdone, hpolc⟩ := O4done hsbfy
                  have hfyeq : firstYield (RBody.yieldGen (some sb) rest)
                      = firstYield rest := by simp [firstYield, hsbfy]
                  simp only [hcdone]
                  set h5 := rgUpd h4 r (fun n0 => { n0 with pol := self }) with hh5
                  have hlen5 : h5.length = h4.length := rgUpd_length _ _ _
                  have hg5r : rgGet h5 r = { rgGet h4 r with pol := self } :=
                    rgGet_rgUpd_self _ _ _ (by omega)
                  have hg5ne : ∀ j, j ≠ r → rgGet h5 j = rgGet h4 j :=
                    fun j hj => rgGet_rgUpd_ne _ _ _ _ hj
                  have hself5root : (rgGet h5 self).root = r := by
                    by_cases hsr : self = r
                    · rw [hsr] at hself4root ⊢; rw [hg5r]; exact hself4root
                    · rw [hg5ne self hsr]; exact hself4root
                  have hself5exc : (rgGet h5 self).exc = none := by
                    by_cases hsr : self = r
                    · rw [hsr] at hself4exc ⊢; rw [hg5r]; exact hself4exc
                    · rw [hg5ne self hsr]; exact hself4exc
                  obtain ⟨O6len, O6unt, O6rr, O6re, O6rf, O6sr, O6se, O6sp, O6done, O6yield⟩ :=
                    ih rest h5 self r hszr hnts.2 (by omega) (by omega) hself5root
                      (by rw [hg5r]) (by rw [hg5r]; rw [O4rr, hg3r]; exact hrroot) hself5exc
                  refine ⟨?_, ?_, ?_, ?_, ?_, ?_, ?_, ?_, ?_, ?_⟩
                  · omega
                  · intro j hj hjs hjr
                    rw [O6unt j (by omega) hjs hjr, hg5ne j hjr,
                      O4unt j (by omega) (by omega) hjr, hg3other j hj hjr]
                  · simp only [O6rr, hg5r, O4rr, hg3r]
                  · simp only [O6re, hg5r, O4re, hg3r]
                  · intro hne
                    simp only [O6rf hne, hg5r, O4rf hr_ne_c, hg3r]
                  · simp only [O6sr]; rw [hself5root, hsroot]
                  · simp only [O6se]; rw [hself5exc, hsexc]
                  · intro hne
                    simp only [O6sp hne, hg5ne self hne,
                      O4unt self (by omega) hself_ne_c hne, hg3other self hselflt hne]
                  · intro hfyb
                    rw [hfyeq] at hfyb
                    exact O6done hfyb
                  · intro a hd tl hfyb
                    rw [hfyeq] at hfyb
                    obtain ⟨l, ps, c1, c2, c3, c4, c5, c6, c7, c8, c9, c10, c11, c12⟩ :=
                      O6yield a hd tl hfyb
                    refine ⟨l, ps, c1, c2, c3, c4, c5, c6, c7, c8, c9, ?_, ?_, ?_⟩
                    · intro j hj
                      rcases c10 j hj with hj1 | hj2
                      · exact Or.inl hj1
                      · exact Or.inr (by omega)
                    · omega
                    · rcases c12 with hl | hl
                      · exact Or.inl hl
                      · exact Or.inr (by omega)
              | some v =>
                  obtain ⟨a, hd, tl⟩ := v
                  obtain ⟨l1, ps1, hpolr4, hl1lt4, hfr4, hval4, hroot4, hexc4, hnthd,
                    hctx4, hnd4, hbound4, hszb4, hdisj4⟩ := O4yield a hd tl hsbfy
                  have hfyeq : firstYield (RBody.yieldGen (some sb) rest)
                      = some (a, hd, tl ++ [rest]) := by simp [firstYield, hsbfy]
                  have hl1nself : l1 ≠ self := by
                    rcases hbound4 l1 (List.mem_cons_self _ _) with h1 | h1 <;> omega
                  have hgres_self : rgGet (rgUpd h4 self (fun n0 => { n0 with frame := RFrame.suspNested h.length rest })) self
                      = { rgGet h4 self with frame := RFrame.suspNested h.length rest } :=
                    rgGet_rgUpd_self _ _ _ (by omega)
                  have hgres_ne : ∀ j, j ≠ self →
                      rgGet (rgUpd h4 self (fun n0 => { n0 with frame := RFrame.suspNested h.length rest })) j
                        = rgGet h4 j :=
                    fun j hj => rgGet_rgUpd_ne _ _ _ _ hj
                  have hreslen : (rgUpd h4 self (fun n0 => { n0 with frame := RFrame.suspNested h.length rest })).length
                      = h4.length := rgUpd_length _ _ _
                  have hgres_r_root : (rgGet (rgUpd h4 self (fun n0 => { n0 with frame := RFrame.suspNested h.length rest })) r).root
                      = (rgGet h4 r).root := by
                    by_cases hsr : r = self
                    · rw [hsr, hgres_self]
                    · rw [hgres_ne r hsr]
                  have hgres_r_exc : (rgGet (rgUpd h4 self (fun n0 => { n0 with frame := RFrame.suspNested h.length rest })) r).exc
                      = (rgGet h4 r).exc := by
                    by_cases hsr : r = self
                    · rw [hsr, hgres_self]
                    · rw [hgres_ne r hsr]
                  have hgres_r_pol : (rgGet (rgUpd h4 self (fun n0 => { n0 with frame := RFrame.suspNested h.length rest })) r).pol
                      = (rgGet h4 r).pol := by
                    by_cases hsr : r = self
                    · rw [hsr, hgres_self]
                    · rw [hgres_ne r hsr]
                  have HB : RBOut h self r (RBody.yieldGen (some sb) rest)
                      (rgUpd h4 self (fun n0 => { n0 with frame := RFrame.suspNested h.length rest })) := by
                    refine ⟨?_, ?_, ?_, ?_, ?_, ?_, ?_, ?_, ?_, ?_⟩
                    · omega
                    · intro j hj hjs hjr
                      rw [hgres_ne j hjs, O4unt j (by omega) (by omega) hjr, hg3other j hj hjr]
                    · rw [hgres_r_root]; simp only [O4rr, hg3r]
                    · rw [hgres_r_exc]; simp only [O4re, hg3r]
                    · intro hne
                      rw [hgres_ne r (fun hh => hne hh.symm)]
                      simp only [O4rf hr_ne_c, hg3r]
                    · simp only [hgres_self]; rw [hself4root, hsroot]
                    · simp only [hgres_self]; rw [hself4exc, hsexc]
                    · intro hne
                      simp only [hgres_self]
                      rw [O4unt self (by omega) hself_ne_c hne, hg3other self hselflt hne]
                    · intro hfyb
                      rw [hfyeq] at hfyb
                      simp at hfyb
                    · intro a0 hd0 tl0 hfyb
                      rw [hfyeq] at hfyb
                      have hv : a = a0 ∧ hd = hd0 ∧ tl ++ [rest] = tl0 := by simpa using hfyb
                      rcases hv with ⟨ha, hh, ht⟩
                      subst ha; subst hh; subst ht
                      have hctx_res : CtxInv (rgUpd h4 self (fun n0 => { n0 with frame := RFrame.suspNested h.length rest })) r l1 tl ps1 h.length := by
                        refine CtxInv_transport h4 _ r l1 h.length tl ps1 hctx4
                          (List.nodup_cons.mp hnd4).2 (by rw [hgres_ne l1 hl1nself]) ?_
                          (by rw [hgres_ne h.length (fun hh => hself_ne_c hh.symm)])
                          (by rw [hgres_ne h.length (fun hh => hself_ne_c hh.symm)])
                          (by rw [hgres_ne h.length (fun hh => hself_ne_c hh.symm)])
                          (by omega)
                        intro j hj hjc
                        rcases hbound4 j (List.mem_cons_of_mem _ hj) with h1 | h1
                        · exact absurd h1 hjc
                        · exact hgres_ne j (by omega)
                      have hctx_full : CtxInv (rgUpd h4 self (fun n0 => { n0 with frame := RFrame.suspNested h.length rest })) r l1 (tl ++ [rest]) (ps1 ++ [self]) self := by
                        refine CtxInv_snoc _ r l1 h.length self rest tl ps1 hctx_res
                          (by rw [hgres_ne h.length (fun hh => hself_ne_c hh.symm)]; exact hg4c_pol)
                          (by omega)
                          (by simp only [hgres_self])
                          (by simp only [hgres_self]; exact hself4root)
                          (by simp only [hgres_self]; exact hself4exc)
                          hnts.2
                      have hnall : ∀ j, j ∈ l1 :: ps1 → j ≠ self := by
                        intro j hj
                        rcases hbound4 j hj with h1 | h1 <;> omega
                      refine ⟨l1, ps1 ++ [self], by rw [hgres_r_pol]; exact hpolr4,
                        by omega,
                        by rw [hgres_ne l1 hl1nself]; exact hfr4,
                        by rw [hgres_ne l1 hl1nself]; exact hval4,
                        by rw [hgres_ne l1 hl1nself]; exact hroot4,
                        by rw [hgres_ne l1 hl1nself]; exact hexc4,
                        hnthd, hctx_full, ?_, ?_, ?_, ?_⟩
                      · rw [List.nodup_cons]
                        constructor
                        · simp only [List.mem_append, List.mem_singleton]
                          rintro (hmem | heq)
                          · exact (List.nodup_cons.mp hnd4).1 hmem
                          · exact hnall l1 (List.mem_cons_self _ _) heq
                        · rw [List.nodup_append]
                          refine ⟨(List.nodup_cons.mp hnd4).2, List.nodup_singleton self, ?_⟩
                          intro x hx hx2
                          simp only [List.mem_singleton] at hx2
                          exact hnall x (List.mem_cons_of_mem _ hx) hx2
                      · intro j hj
                        simp only [List.cons_append, List.mem_cons, List.mem_append,
                          List.mem_singleton] at hj
                        rcases hj with hj | hj | hj | hj
                        · rcases hbound4 j (hj ▸ List.mem_cons_self l1 ps1) with h1 | h1 <;>
                            exact Or.inr (by omega)
                        · rcases hbound4 j (List.mem_cons_of_mem _ hj) with h1 | h1 <;>
                            exact Or.inr (by omega)
                        · exact Or.inl hj
                        · simp at hj
                      · simp only [List.length_append, List.length_singleton]
                        omega
                      · rcases hbound4 l1 (List.mem_cons_self _ _) with h1 | h1 <;>
                          exact Or.inr (by omega)
                  rcases hdisj4 with ⟨hl1c, htlnil⟩ | hge
                  · have hcf : (rgGet h4 h.length).frame = RFrame.suspYield hd := by
                      rw [← hl1c]; exact hfr4
                    simp only [hcf]
                    exact HB
                  · have htlne : tl ≠ [] := by
                      intro hnil
                      subst hnil
                      obtain ⟨heq1, _⟩ := CtxInv_nil_inv _ _ _ _ _ hctx4
                      omega
                    obtain ⟨m2, b2, hcf⟩ := CtxInv_top_frame _ _ _ _ _ _ hctx4 htlne
                    simp only [hcf]
                    exact HB

theorem CtxInv_self_top (h : RHeap α ε) (r t : Nat) (bs : List (RBody α ε)) (ps : List Nat)
    (hc : CtxInv h r t bs ps t) (hnd : (t :: ps).Nodup) : bs = [] := by
  cases bs with
  | nil => rfl
  | cons b1 bs1 =>
      have hmem : t ∈ ps := CtxInv_mem_top h r t t _ ps hc (by simp)
      exact absurd hmem (List.nodup_cons.mp hnd).1

theorem Conf_root_not_done (h : RHeap α ε) (r : Nat) (b : RBody α ε) (bs : List (RBody α ε))
    (hconf : Conf h r b bs) : rgIsDone h r = false := by
  obtain ⟨l, ps, hrlt, hllt, hrroot, hrexc, hrpol, hleaf, hlroot, hlexc, hnt, hctx,
    hnd, hlen⟩ := hconf
  by_cases hlr : l = r
  · subst hlr
    rcases hleaf with hfr | hfr <;> simp [rgIsDone, hfr]
  · have hbs : bs ≠ [] := by
      intro hnil
      subst hnil
      exact hlr (CtxInv_nil_inv _ _ _ _ _ hctx).1
    obtain ⟨m2, b2, hfr⟩ := CtxInv_top_frame _ _ _ _ _ _ hctx hbs
    simp [rgIsDone, hfr]

theorem Conf_leaf_not_done (h : RHeap α ε) (r : Nat) (b : RBody α ε) (bs : List (RBody α ε))
    (hconf : Conf h r b bs) : rgIsDone h ((rgGet h r).pol) = false := by
  obtain ⟨l, ps, hrlt, hllt, hrroot, hrexc, hrpol, hleaf, hlroot, hlexc, hnt, hctx,
    hnd, hlen⟩ := hconf
  rw [hrpol]
  rcases hleaf with hfr | hfr <;> simp [rgIsDone, hfr]

theorem rgPullLoop_exit (h : RHeap α ε) (r : Nat)
    (hcond : (rgGet h r).pol = r ∨ rgIsDone h ((rgGet h r).pol) = false) :
    ∀ fuel, rgPullLoop fuel h r = h := by
  intro fuel
  cases fuel with
  | zero => rfl
  | succ f =>
      simp only [rgPullLoop]
      rw [if_neg]
      intro hcontra
      rcases hcond with hcond | hcond
      · exact absurd hcond hcontra.1
      · rw [hcond] at hcontra
        exact absurd hcontra.2 (by simp)

theorem Conf_assemble (hB h2 : RHeap α ε) (r lrun : Nat) (brun : RBody α ε)
    (bs_up : List (RBody α ε)) (ps_up : List Nat)
    (a : α) (hd : RBody α ε) (tl : List (RBody α ε))
    (O : RBOut hB lrun r brun h2) (hfy : firstYield brun = some (a, hd, tl))
    (hrlt : r < hB.length) (hllt : lrun < hB.length)
    (hrroot : (rgGet hB r).root = r) (hrexc : (rgGet hB r).exc = none)
    (hrpol : (rgGet hB r).pol = lrun)
    (hctx : CtxInv hB r lrun bs_up ps_up r)
    (hnd : (lrun :: ps_up).Nodup)
    (hlen : bs_up.length + 1 ≤ hB.length) :
    Conf h2 r hd (tl ++ bs_up) ∧ rgValue h2 r = some a := by
  obtain ⟨Olen, Ount, Orr, Ore, Orf, Osr, Ose, Osp, Odone, Oyield⟩ := O
  obtain ⟨l2, ps2, hpol2, hl2lt, hfr2, hval2, hroot2, hexc2, hnthd, hctx2, hnd2,
    hbound2, hszb2, hdisj2⟩ := Oyield a hd tl hfy
  constructor
  · refine ⟨l2, ps2 ++ ps_up, by omega, hl2lt, by rw [Orr]; exact hrroot,
      by rw [Ore]; exact hrexc, hpol2, Or.inr hfr2, hroot2, hexc2, hnthd, ?_, ?_, ?_⟩
    · by_cases hlr : lrun = r
      · have hctx_r : CtxInv hB r r bs_up ps_up r := hlr ▸ hctx
        have hnd_r : (r :: ps_up).Nodup := hlr ▸ hnd
        have hbs : bs_up = [] := CtxInv_self_top hB r r bs_up ps_up hctx_r hnd_r
        subst hbs
        obtain ⟨_, hps⟩ := CtxInv_nil_inv _ _ _ _ _ hctx_r
        subst hps
        simpa using (hlr ▸ hctx2 : CtxInv h2 r l2 tl ps2 r)
      · have htrans : CtxInv h2 r lrun bs_up ps_up r := by
          refine CtxInv_transport hB h2 r lrun r bs_up ps_up hctx
            (List.nodup_cons.mp hnd).2 (Osp hlr) ?_ (Orf hlr) Orr Ore Olen
          intro j hj hjr
          exact Ount j (CtxInv_mem_lt _ _ _ _ _ _ hctx j hj)
            (fun hjl => (List.nodup_cons.mp hnd).1 (hjl ▸ hj)) hjr
        exact CtxInv_append h2 r l2 lrun r tl bs_up ps2 ps_up hctx2 htrans
    · show ((l2 :: ps2) ++ ps_up).Nodup
      rw [List.nodup_append]
      refine ⟨hnd2, (List.nodup_cons.mp hnd).2, ?_⟩
      intro x hx hx2
      rcases hbound2 x hx with h1 | h1
      · exact (List.nodup_cons.mp hnd).1 (h1 ▸ hx2)
      · have := CtxInv_mem_lt _ _ _ _ _ _ hctx x hx2
        omega
    · simp only [List.length_append]
      omega
  · rw [rgValue, hpol2, hval2]

theorem rgPullLoop_step (h : RHeap α ε) (r l : Nat) (f : Nat)
    (hrpol : (rgGet h r).pol = l) (hlne : l ≠ r) (hldone : rgIsDone h l = true) :
    rgPullLoop (f + 1) h r
      = rgPullLoop f
          (rgResume (rgUpd h r (fun n0 => { n0 with pol := (rgGet h l).pol }))
            ((rgGet h l).pol)) r := by
  simp only [rgPullLoop, hrpol]
  rw [if_pos ⟨hlne, hldone⟩]

theorem rgPullLoop_spec :
    ∀ (bs : List (RBody α ε)) (ps : List Nat) (h : RHeap α ε) (r l fuel : Nat),
      r < h.length → l < h.length →
      (rgGet h r).root = r → (rgGet h r).exc = none →
      (rgGet h r).pol = l →
      (rgGet h l).frame = RFrame.done → (rgGet h l).exc = none →
      CtxInv h r l bs ps r → (l :: ps).Nodup →
      bs.length ≤ fuel → bs.length + 1 ≤ h.length →
      (match stepA bs with
       | none => rgIsDone (rgPullLoop fuel h r) r = true ∧
           (rgGet (rgPullLoop fuel h r) r).exc = none
       | some x => ∃ b2 bs2, x.2 = b2 :: bs2 ∧ Conf (rgPullLoop fuel h r) r b2 bs2 ∧
           rgValue (rgPullLoop fuel h r) r = some x.1) := by
  intro bs
  induction bs with
  | nil =>
      intro ps h r l fuel hrlt hllt hrroot hrexc hrpol hldone hlexc hctx hnd hfuel hlen
      obtain ⟨hlr, hps⟩ := CtxInv_nil_inv _ _ _ _ _ hctx
      have hexit : rgPullLoop fuel h r = h :=
        rgPullLoop_exit h r (Or.inl (by rw [hrpol, hlr])) fuel
      rw [show stepA ([] : List (RBody α ε)) = none from rfl]
      rw [hexit]
      constructor
      · rw [show r = l from hlr.symm]
        simp [rgIsDone, hldone]
      · exact hrexc
  | cons b_p bs2 ih =>
      intro ps h r l fuel hrlt hllt hrroot hrexc hrpol hldone hlexc hctx hnd hfuel hlen
      have hlner : l ≠ r := by
        intro hlr
        have hemp := CtxInv_self_top h r r (b_p :: bs2) ps (hlr ▸ hctx) (hlr ▸ hnd)
        simp at hemp
      cases hctx with
      | cons _ p _ _ _ ps2 hpol hplt hpframe hproot hpexc hntbp hrest =>
        have hndp : (p :: ps2).Nodup := (List.nodup_cons.mp hnd).2
        have hpnotin : p ∉ ps2 := (List.nodup_cons.mp hndp).1
        have hlnotin : l ∉ p :: ps2 := (List.nodup_cons.mp hnd).1
        cases fuel with
        | zero => simp at hfuel
        | succ f =>
            rw [rgPullLoop_step h r l f hrpol hlner (by simp [rgIsDone, hldone]), hpol]
            set hB := rgUpd h r (fun n0 => { n0 with pol := p }) with hhB
            have hBlen : hB.length = h.length := rgUpd_length _ _ _
            have hgBr : rgGet hB r = { rgGet h r with pol := p } :=
              rgGet_rgUpd_self _ _ _ hrlt
            have hgBne : ∀ j, j ≠ r → rgGet hB j = rgGet h j :=
              fun j hj => rgGet_rgUpd_ne _ _ _ _ hj
            have hgBp_frame : (rgGet hB p).frame = RFrame.suspNested l b_p := by
              by_cases hpr : p = r
              · rw [hpr, hgBr]; rw [hpr] at hpframe; exact hpframe
              · rw [hgBne p hpr]; exact hpframe
            have hgBp_root : (rgGet hB p).root = r := by
              by_cases hpr : p = r
              · rw [hpr, hgBr]; exact hrroot
              · rw [hgBne p hpr]; exact hproot
            have hgBp_exc : (rgGet hB p).exc = none := by
              by_cases hpr : p = r
              · rw [hpr, hgBr]; exact hrexc
              · rw [hgBne p hpr]; exact hpexc
            have hgBl_exc : (rgGet hB l).exc = none := by
              rw [hgBne l hlner]; exact hlexc
            have hres : rgResume hB p = rgRunBody hB p b_p := by
              simp only [rgResume, hgBp_frame, hgBl_exc]
            rw [hres]
            have hctxB : CtxInv hB r p bs2 ps2 r := by
              by_cases hpr : p = r
              · have hbs2 : bs2 = [] :=
                  CtxInv_self_top h r r bs2 ps2 (hpr ▸ hrest) (hpr ▸ hndp)
                subst hbs2
                obtain ⟨_, hps2⟩ := CtxInv_nil_inv _ _ _ _ _ hrest
                subst hps2
                subst hpr
                exact CtxInv.nil p
              · refine CtxInv_transport h hB r p r bs2 ps2 hrest
                  (List.nodup_cons.mp hndp).2 (by rw [hgBne p hpr]) ?_
                  (by rw [hgBr]) (by rw [hgBr]) (by rw [hgBr]) (by omega)
                intro j hj hjr
                exact hgBne j hjr
            have O := rgRunBody_spec (rgSize b_p) b_p hB p r (Nat.le_refl _) hntbp
              (by omega) (by omega) hgBp_root (by rw [hgBr]) (by rw [hgBr]; exact hrroot)
              hgBp_exc
            cases hfy : firstYield b_p with
            | none =>
                obtain ⟨Olen, Ount, Orr, Ore, Orf, Osr, Ose, Osp, Odone, Oyield⟩ := O
                obtain ⟨hpdone, hpolr2⟩ := Odone hfy
                rw [show stepA (b_p :: bs2) = stepA bs2 from by simp [stepA, hfy]]
                have hctx2 : CtxInv (rgRunBody hB p b_p) r p bs2 ps2 r := by
                  by_cases hpr : p = r
                  · have hbs2 : bs2 = [] :=
                      CtxInv_self_top h r r bs2 ps2 (hpr ▸ hrest) (hpr ▸ hndp)
                    subst hbs2
                    obtain ⟨_, hps2⟩ := CtxInv_nil_inv _ _ _ _ _ hrest
                    subst hps2
                    subst hpr
                    exact CtxInv.nil p
                  · refine CtxInv_transport hB (rgRunBody hB p b_p) r p r bs2 ps2 hctxB
                      (List.nodup_cons.mp hndp).2 (Osp hpr) ?_ (Orf hpr) Orr Ore Olen
                    intro j hj hjr
                    refine Ount j ?_ (fun hjp => hpnotin (hjp ▸ hj)) hjr
                    have := CtxInv_mem_lt _ _ _ _ _ _ hctxB j hj
                    omega
                exact ih ps2 (rgRunBody hB p b_p) r p f (by omega) (by omega)
                  (by rw [Orr, hgBr]; exact hrroot) (by rw [Ore, hgBr]; exact hrexc)
                  hpolr2 hpdone (by rw [Ose]; exact hgBp_exc) hctx2 hndp
                  (by simp at hfuel; omega) (by simp at hlen; omega)
            | some v =>
                obtain ⟨a, hd, tl⟩ := v
                rw [show stepA (b_p :: bs2) = some (a, hd :: (tl ++ bs2)) from by
                  simp [stepA, hfy]]
                obtain ⟨hconf, hval⟩ := Conf_assemble hB (rgRunBody hB p b_p) r p b_p
                  bs2 ps2 a hd tl O hfy (by omega) (by omega)
                  (by rw [hgBr]; exact hrroot) (by rw [hgBr]; exact hrexc)
                  (by rw [hgBr]) hctxB hndp (by simp at hlen; omega)
                have hexit : rgPullLoop f (rgRunBody hB p b_p) r = rgRunBody hB p b_p :=
                  rgPullLoop_exit _ r
                    (Or.inr (Conf_leaf_not_done _ r hd (tl ++ bs2) hconf)) f
                rw [hexit]
                exact ⟨hd, tl ++ bs2, rfl, hconf, hval⟩

theorem rgPull_spec (h : RHeap α ε) (r : Nat) (b : RBody α ε) (bs : List (RBody α ε))
    (hconf : Conf h r b bs) :
    (match stepA (b :: bs) with
     | none => rgIsDone (rgPull h r) r = true ∧ (rgGet (rgPull h r) r).exc = none
     | some x => ∃ b2 bs2, x.2 = b2 :: bs2 ∧ Conf (rgPull h r) r b2 bs2 ∧
         rgValue (rgPull h r) r = some x.1) := by
  obtain ⟨l, ps, hrlt, hllt, hrroot, hrexc, hrpol, hleaf, hlroot, hlexc, hnt, hctx,
    hnd, hlen⟩ := hconf
  have hres : rgResume h ((rgGet h r).pol) = rgRunBody h l b := by
    rw [hrpol]
    rcases hleaf with hfr | hfr <;> simp only [rgResume, hfr]
  have hpull : rgPull h r = rgPullLoop (rgRunBody h l b).length (rgRunBody h l b) r := by
    simp only [rgPull]
    rw [hres]
  have O := rgRunBody_spec (rgSize b) b h l r (Nat.le_refl _) hnt hllt hrlt hlroot
    hrpol hrroot hlexc
  cases hfy : firstYield b with
  | some v =>
      obtain ⟨a, hd, tl⟩ := v
      rw [show stepA (b :: bs) = some (a, hd :: (tl ++ bs)) from by simp [stepA, hfy]]
      obtain ⟨hconf2, hval⟩ := Conf_assemble h (rgRunBody h l b) r l b bs ps a hd tl O
        hfy hrlt hllt hrroot hrexc hrpol hctx hnd hlen
      have hexit : rgPullLoop (rgRunBody h l b).length (rgRunBody h l b) r
          = rgRunBody h l b :=
        rgPullLoop_exit _ r (Or.inr (Conf_leaf_not_done _ r hd (tl ++ bs) hconf2)) _
      rw [hpull, hexit]
      exact ⟨hd, tl ++ bs, rfl, hconf2, hval⟩
  | none =>
      obtain ⟨Olen, Ount, Orr, Ore, Orf, Osr, Ose, Osp, Odone, Oyield⟩ := O
      obtain ⟨hldone2, hpolr2⟩ := Odone hfy
      rw [show stepA (b :: bs) = stepA bs from by simp [stepA, hfy]]
      rw [hpull]
      have hctx2 : CtxInv (rgRunBody h l b) r l bs ps r := by
        by_cases hlr : l = r
        · have hbs : bs = [] := CtxInv_self_top h r r bs ps (hlr ▸ hctx) (hlr ▸ hnd)
          subst hbs
          obtain ⟨_, hps⟩ := CtxInv_nil_inv _ _ _ _ _ hctx
          subst hps
          subst hlr
          exact CtxInv.nil _
        · refine CtxInv_transport h (rgRunBody h l b) r l r bs ps hctx
            (List.nodup_cons.mp hnd).2 (Osp hlr) ?_ (Orf hlr) Orr Ore Olen
          intro j hj hjr
          exact Ount j (CtxInv_mem_lt _ _ _ _ _ _ hctx j hj)
            (fun hjl => (List.nodup_cons.mp hnd).1 (hjl ▸ hj)) hjr
      exact rgPullLoop_spec bs ps (rgRunBody h l b) r l _ (by omega) (by omega)
        (by rw [Orr]; exact hrroot) (by rw [Ore]; exact hrexc) hpolr2 hldone2
        (by rw [Ose]; exact hlexc) hctx2 hnd (by omega) (by omega)

theorem flattenSpec_length_le :
    ∀ (n : Nat) (b : RBody α ε), rgSize b ≤ n → (flattenSpec b).length ≤ rgSize b := by
  intro n
  induction n with
  | zero => intro b hb; have := rgSize_pos b; omega
  | succ n ihn =>
      intro b hb
      cases b with
      | ret => simp [flattenSpec, rgSize]
      | throwE e => simp [flattenSpec, rgSize]
      | yield a r =>
          have := ihn r (by simp [rgSize] at hb; omega)
          simp [flattenSpec, rgSize]
          omega
      | yieldGen sub r =>
          cases sub with
          | none =>
              have := ihn r (by simp [rgSize] at hb; omega)
              simp [flattenSpec, rgSize]
              omega
          | some sb =>
              have h1 := ihn sb (by simp [rgSize] at hb; omega)
              have h2 := ihn r (by simp [rgSize] at hb; omega)
              simp [flattenSpec, rgSize]
              omega

theorem rgLoop_none (f : Nat) (h : RHeap α ε) (acc : List α) :
    rgLoop f h none acc = (acc, none) := by
  cases f <;> rfl

theorem rgLoop_spec :
    ∀ (fuel : Nat) (h : RHeap α ε) (r : Nat) (b : RBody α ε) (bs : List (RBody α ε))
      (v : α) (acc : List α),
      Conf h r b bs → rgValue h r = some v →
      (flattenStack (b :: bs)).length < fuel →
      rgLoop fuel h (some r) acc = (acc ++ v :: flattenStack (b :: bs), none) := by
  intro fuel
  induction fuel with
  | zero => intro h r b bs v acc _ _ hlt; omega
  | succ f ihf =>
      intro h r b bs v acc hconf hval hlt
      have key : rgLoop (f + 1) h (some r) acc
          = (match rgValue h r with
             | none => (acc, none)
             | some a =>
               match (rgInc h r).2.1 with
               | some e => (acc ++ [a], some e)
               | none => rgLoop f (rgInc h r).1 (rgInc h r).2.2 (acc ++ [a])) := rfl
      rw [key, hval]
      have P := rgPull_spec h r b bs hconf
      cases hstep : stepA (b :: bs) with
      | none =>
          rw [hstep] at P
          obtain ⟨hdone, hexc⟩ := P
          have hinc : rgInc h r = ((rgRethrow (rgPull h r) r).2, (rgRethrow (rgPull h r) r).1, none) := by
            simp only [rgInc]
            rw [if_pos hdone]
          have hre : rgRethrow (rgPull h r) r = (none, rgPull h r) := by
            simp only [rgRethrow, hexc]
          rw [hinc, hre]
          show rgLoop f (rgPull h r) none (acc ++ [v])
              = (acc ++ v :: flattenStack (b :: bs), none)
          rw [rgLoop_none, stepA_none_flatten _ hstep]
      | some x =>
          obtain ⟨a, s2⟩ := x
          rw [hstep] at P
          obtain ⟨b2, bs2, hs2, hconf2, hval2⟩ := P
          have hs2x : s2 = b2 :: bs2 := hs2
          have hval2x : rgValue (rgPull h r) r = some a := hval2
          have hnotdone : rgIsDone (rgPull h r) r = false :=
            Conf_root_not_done _ _ _ _ hconf2
          have hinc : rgInc h r = (rgPull h r, none, some r) := by
            simp only [rgInc]
            rw [if_neg (by simp [hnotdone])]
          rw [hinc]
          show rgLoop f (rgPull h r) (some r) (acc ++ [v])
              = (acc ++ v :: flattenStack (b :: bs), none)
          have hlt2 : (flattenStack (b2 :: bs2)).length < f := by
            have hfl := stepA_some_flatten _ _ _ hstep
            rw [hs2x] at hfl
            rw [hfl] at hlt
            simpa using Nat.lt_of_succ_lt_succ hlt
          rw [ihf (rgPull h r) r b2 bs2 a (acc ++ [v]) hconf2 hval2x hlt2,
            stepA_some_flatten _ _ _ hstep, hs2x]
          simp

theorem rgRun_eq_flattenSpec (b : RBody α ε) (hnt : rgNoThrow b = true) :
    rgRun b = (flattenSpec b, none) := by
  have hconf0 : Conf (rgInit b) 0 b [] := by
    refine ⟨0, [], by simp [rgInit], by simp [rgInit], rfl, rfl, rfl, Or.inl rfl,
      rfl, rfl, hnt, CtxInv.nil 0, by simp, by simp [rgInit]⟩
  have P := rgPull_spec (rgInit b) 0 b [] hconf0
  cases hstep : stepA [b] with
  | none =>
      rw [hstep] at P
      obtain ⟨hdone, hexc⟩ := P
      have hbegin : rgBegin (rgInit b) (some 0) = (rgPull (rgInit b) 0, none, none) := by
        simp only [rgBegin]
        rw [if_pos hdone]
        simp [rgRethrow, hexc]
      have hrun : rgRun b = rgLoop (rgSize b + 1) (rgPull (rgInit b) 0) none [] := by
        simp only [rgRun, hbegin]
      rw [hrun, rgLoop_none]
      have hfs : flattenSpec b = [] := by
        have := stepA_none_flatten [b] hstep
        simpa [flattenStack] using this
      rw [hfs]
  | some x =>
      obtain ⟨a, s2⟩ := x
      rw [hstep] at P
      obtain ⟨b2, bs2, hs2, hconf2, hval2⟩ := P
      have hs2x : s2 = b2 :: bs2 := hs2
      have hval2x : rgValue (rgPull (rgInit b) 0) 0 = some a := hval2
      have hnotdone : rgIsDone (rgPull (rgInit b) 0) 0 = false :=
        Conf_root_not_done _ _ _ _ hconf2
      have hbegin : rgBegin (rgInit b) (some 0)
          = (rgPull (rgInit b) 0, none, some 0) := by
        simp only [rgBegin]
        rw [if_neg (by simp [hnotdone])]
      have hrun : rgRun b = rgLoop (rgSize b + 1) (rgPull (rgInit b) 0) (some 0) [] := by
        simp only [rgRun, hbegin]
      have hfl1 : flattenSpec b = a :: flattenStack (b2 :: bs2) := by
        have hx := stepA_some_flatten [b] a s2 hstep
        rw [hs2x] at hx
        simpa [flattenStack] using hx
      have hlenx : (flattenStack (b2 :: bs2)).length < rgSize b + 1 := by
        have h1 := flattenSpec_length_le (rgSize b) b (Nat.le_refl _)
        rw [hfl1] at h1
        simp at h1
        omega
      rw [hrun, rgLoop_spec (rgSize b + 1) (rgPull (rgInit b) 0) 0 b2 bs2 a []
        hconf2 hval2x hlenx, hfl1]
      simp

theorem fmapRSession_unfold (fuel : Nat) (f : α → β) (c : FmapRCoro α β ε) (acc : List β) :
    fmapRSession fuel f c acc =
      if fmapRDone c then (acc, (fmapRRethrow c).1)
      else
        match c.m_value with
        | none => (acc, none)
        | some a =>
          match fuel with
          | 0 => (acc ++ [a], none)
          | fuel' + 1 => fmapRSession fuel' f (fmapRResume f c) (acc ++ [a]) := by
  rw [fmapRSession.eq_def]

theorem fmapRSession_spec :
    ∀ (fuel : Nat) (f : α → β) (h : RHeap α ε) (r : Nat) (b : RBody α ε)
      (bs : List (RBody α ε)) (v : α) (c : FmapRCoro α β ε) (acc : List β),
      Conf h r b bs → rgValue h r = some v →
      (flattenStack (b :: bs)).length < fuel →
      c.m_exception = none →
      fmapRSession fuel f
          { c with frame := FmapRFrame.suspYield (some r), heap := h, m_value := some (f v) }
          acc
        = (acc ++ (f v :: (flattenStack (b :: bs)).map f), none) := by
  intro fuel
  induction fuel with
  | zero => intro f h r b bs v c acc _ _ hlt; omega
  | succ fu ihf =>
      intro f h r b bs v c acc hconf hval hlt hcexc
      have key : fmapRSession (fu + 1) f
          { c with frame := FmapRFrame.suspYield (some r), heap := h, m_value := some (f v) } acc
          = fmapRSession fu f
              (fmapRNext f { c with frame := FmapRFrame.suspYield (some r), heap := h, m_value := some (f v) }
                (rgInc h r).1 (rgInc h r).2.1 (rgInc h r).2.2)
              (acc ++ [f v]) := rfl
      rw [key]
      have P := rgPull_spec h r b bs hconf
      cases hstep : stepA (b :: bs) with
      | none =>
          rw [hstep] at P
          obtain ⟨hdone, hexc⟩ := P
          have hinc : rgInc h r = (rgPull h r, none, none) := by
            simp only [rgInc]
            rw [if_pos hdone]
            simp [rgRethrow, hexc]
          rw [hinc]
          show fmapRSession fu f
              { c with frame := FmapRFrame.done, heap := rgPull h r, m_value := some (f v) }
              (acc ++ [f v])
            = (acc ++ f v :: List.map f (flattenStack (b :: bs)), none)
          rw [fmapRSession_unfold, stepA_none_flatten _ hstep]
          simp [fmapRDone, fmapRRethrow, hcexc]
      | some x =>
          obtain ⟨a, s2⟩ := x
          rw [hstep] at P
          obtain ⟨b2, bs2, hs2, hconf2, hval2⟩ := P
          have hs2x : s2 = b2 :: bs2 := hs2
          have hval2x : rgValue (rgPull h r) r = some a := hval2
          have hnotdone : rgIsDone (rgPull h r) r = false :=
            Conf_root_not_done _ _ _ _ hconf2
          have hinc : rgInc h r = (rgPull h r, none, some r) := by
            simp only [rgInc]
            rw [if_neg (by simp [hnotdone])]
          rw [hinc]
          show fmapRSession fu f
              (match rgValue (rgPull h r) r with
               | some a2 => { c with frame := FmapRFrame.suspYield (some r), heap := rgPull h r, m_value := some (f a2) }
               | none => { c with frame := FmapRFrame.done, heap := rgPull h r, m_value := some (f v) })
              (acc ++ [f v])
            = (acc ++ f v :: List.map f (flattenStack (b :: bs)), none)
          rw [hval2x]
          have hlt2 : (flattenStack (b2 :: bs2)).length < fu := by
            have hfl := stepA_some_flatten _ _ _ hstep
            rw [hs2x] at hfl
            rw [hfl] at hlt
            simpa using Nat.lt_of_succ_lt_succ hlt
          have := ihf f (rgPull h r) r b2 bs2 a c (acc ++ [f v]) hconf2 hval2x hlt2 hcexc
          rw [this, stepA_some_flatten _ _ _ hstep, hs2x]
          simp

theorem fmapR_run_eq_map (f : α → β) (b : RBody α ε) (hnt : rgNoThrow b = true) :
    fmapR_run f b = ((flattenSpec b).map f, none) := by
  have hconf0 : Conf (rgInit b) 0 b [] := by
    refine ⟨0, [], by simp [rgInit], by simp [rgInit], rfl, rfl, rfl, Or.inl rfl,
      rfl, rfl, hnt, CtxInv.nil 0, by simp, by simp [rgInit]⟩
  have P := rgPull_spec (rgInit b) 0 b [] hconf0
  have hrun : fmapR_run f b = fmapRSession (rgSize b + 1) f
      (fmapRNext f { frame := FmapRFrame.suspInitial, heap := rgInit b, srcRoot := some 0, m_value := none, m_exception := none }
        (rgBegin (rgInit b) (some 0)).1 (rgBegin (rgInit b) (some 0)).2.1
        (rgBegin (rgInit b) (some 0)).2.2) [] := rfl
  cases hstep : stepA [b] with
  | none =>
      rw [hstep] at P
      obtain ⟨hdone, hexc⟩ := P
      have hbegin : rgBegin (rgInit b) (some 0) = (rgPull (rgInit b) 0, none, none) := by
        simp only [rgBegin]
        rw [if_pos hdone]
        simp [rgRethrow, hexc]
      rw [hrun, hbegin]
      show fmapRSession (rgSize b + 1) f
          { frame := FmapRFrame.done, heap := rgPull (rgInit b) 0, srcRoot := some 0, m_value := (none : Option β), m_exception := (none : Option ε) } []
        = ((flattenSpec b).map f, none)
      rw [fmapRSession_unfold]
      have hfs : flattenSpec b = [] := by
        have := stepA_none_flatten [b] hstep
        simpa [flattenStack] using this
      rw [hfs]
      simp [fmapRDone, fmapRRethrow]
  | some x =>
      obtain ⟨a, s2⟩ := x
      rw [hstep] at P
      obtain ⟨b2, bs2, hs2, hconf2, hval2⟩ := P
      have hs2x : s2 = b2 :: bs2 := hs2
      have hval2x : rgValue (rgPull (rgInit b) 0) 0 = some a := hval2
      have hnotdone : rgIsDone (rgPull (rgInit b) 0) 0 = false :=
        Conf_root_not_done _ _ _ _ hconf2
      have hbegin : rgBegin (rgInit b) (some 0)
          = (rgPull (rgInit b) 0, none, some 0) := by
        simp only [rgBegin]
        rw [if_neg (by simp [hnotdone])]
      rw [hrun, hbegin]
      show fmapRSession (rgSize b + 1) f
          (match rgValue (rgPull (rgInit b) 0) 0 with
           | some a2 => { frame := FmapRFrame.suspYield (some 0), heap := rgPull (rgInit b) 0, srcRoot := some 0, m_value := some (f a2), m_exception := (none : Option ε) }
           | none => { frame := FmapRFrame.done, heap := rgPull (rgInit b) 0, srcRoot := some 0, m_value := (none : Option β), m_exception := (none : Option ε) }) []
        = ((flattenSpec b).map f, none)
      rw [hval2x]
      have hfl1 : flattenSpec b = a :: flattenStack (b2 :: bs2) := by
        have hx := stepA_some_flatten [b] a s2 hstep
        rw [hs2x] at hx
        simpa [flattenStack] using hx
      have hlenx : (flattenStack (b2 :: bs2)).length < rgSize b + 1 := by
        have h1 := flattenSpec_length_le (rgSize b) b (Nat.le_refl _)
        rw [hfl1] at h1
        simp at h1
        omega
      have hsp := fmapRSession_spec (rgSize b + 1) f (rgPull (rgInit b) 0) 0 b2 bs2 a
        { frame := FmapRFrame.suspInitial, heap := rgInit b, srcRoot := some 0, m_value := none, m_exception := none }
        [] hconf2 hval2x hlenx rfl
      simpa [hfl1] using hsp

/-- C2: recursive-generator flattening.  For every throw-free body, driving
the promise-chain machine (`yield_value` wiring the nested node into the
chain as the new leaf and resuming it immediately; `pull` resuming the leaf
and, while the leaf has completed and is not the root, ascending to the
parent and resuming it) through the iterator protocol produces exactly the
spec-side flattening — nested elements spliced in order at the yield point,
recursively to arbitrary depth — and in particular a generator yielding 1,
a nested [2,3], then 4 produces exactly [1,2,3,4]; after the descent the
nested node's root and parent links are wired into the chain and the root's
leaf pointer designates it. -/
theorem recursive_generator_flattening :
    (∀ (α ε : Type) (b : RBody α ε), rgNoThrow b = true →
      rgRun b = (flattenSpec b, none)) ∧
    rgRun (RBody.yield 1 (RBody.yieldGen (some (RBody.yield 2 (RBody.yield 3 RBody.ret)))
        (RBody.yield 4 RBody.ret)) : RBody Nat Nat) = ([1, 2, 3, 4], none) ∧
    ((rgGet (rgPull (rgPull (rgInit (RBody.yield 1 (RBody.yieldGen
        (some (RBody.yield 2 (RBody.yield 3 RBody.ret)))
        (RBody.yield 4 RBody.ret)) : RBody Nat Nat)) 0) 0) 0).pol = 1 ∧
     (rgGet (rgPull (rgPull (rgInit (RBody.yield 1 (RBody.yieldGen
        (some (RBody.yield 2 (RBody.yield 3 RBody.ret)))
        (RBody.yield 4 RBody.ret)) : RBody Nat Nat)) 0) 0) 1).root = 0 ∧
     (rgGet (rgPull (rgPull (rgInit (RBody.yield 1 (RBody.yieldGen
        (some (RBody.yield 2 (RBody.yield 3 RBody.ret)))
        (RBody.yield 4 RBody.ret)) : RBody Nat Nat)) 0) 0) 1).pol = 0) := by
  refine ⟨fun α ε b hnt => rgRun_eq_flattenSpec b hnt, by rfl, by rfl, by rfl, by rfl⟩

/-- Witness for C2: the [1,2,3,4] example discharges the throw-free
hypothesis of the general flattening theorem. -/
theorem recursive_generator_flattening_witness :
    rgNoThrow (RBody.yield 1 (RBody.yieldGen (some (RBody.yield 2 (RBody.yield 3 RBody.ret)))
        (RBody.yield 4 RBody.ret)) : RBody Nat Nat) = true ∧
    rgRun (RBody.yield 1 (RBody.yieldGen (some (RBody.yield 2 (RBody.yield 3 RBody.ret)))
        (RBody.yield 4 RBody.ret)) : RBody Nat Nat)
      = (flattenSpec (RBody.yield 1 (RBody.yieldGen
          (some (RBody.yield 2 (RBody.yield 3 RBody.ret)))
          (RBody.yield 4 RBody.ret)) : RBody Nat Nat), none) :=
  ⟨by decide, recursive_generator_flattening.1 Nat Nat _ (by decide)⟩

/-- C9: both `fmap` adapters produce a plain generator whose elements are
exactly the transform applied to each source element in order — for a plain
generator source the failure mode is also preserved; for a recursive source
the flattened sequence is transformed; mapping x*2 over [1,2,3] yields
[2,4,6] for both source kinds. -/
theorem fmap_transforms_each_element :
    (∀ (α β ε : Type) (f : α → β) (b : GenBody α ε),
      fmap_run f b = (((genSem b).1).map f, (genSem b).2)) ∧
    (∀ (α β ε : Type) (f : α → β) (b : RBody α ε), rgNoThrow b = true →
      fmapR_run f b = ((flattenSpec b).map f, none)) ∧
    fmap_run (fun x => x * 2) (GenBody.yield 1 (GenBody.yield 2 (GenBody.yield 3
        (GenBody.ret (α := Nat) (ε := Nat))))) = ([2, 4, 6], none) ∧
    fmapR_run (fun x => x * 2) (RBody.yield 1 (RBody.yieldGen
        (some (RBody.yield 2 (RBody.yield 3 RBody.ret))) RBody.ret) : RBody Nat Nat)
      = ([2, 4, 6], none) := by
  refine ⟨fun α β ε f b => fmap_run_eq_map f b,
    fun α β ε f b hnt => fmapR_run_eq_map f b hnt, by rfl, by rfl⟩

/-- Witness for C9: the recursive [1,[2,3]] source discharges the
throw-free hypothesis of the recursive-source part. -/
theorem fmap_transforms_each_element_witness :
    rgNoThrow (RBody.yield 1 (RBody.yieldGen
        (some (RBody.yield 2 (RBody.yield 3 RBody.ret))) RBody.ret) : RBody Nat Nat) = true ∧
    fmapR_run (fun x => x * 3) (RBody.yield 1 (RBody.yieldGen
        (some (RBody.yield 2 (RBody.yield 3 RBody.ret))) RBody.ret) : RBody Nat Nat)
      = ((flattenSpec (RBody.yield 1 (RBody.yieldGen
          (some (RBody.yield 2 (RBody.yield 3 RBody.ret))) RBody.ret) : RBody Nat Nat)).map
            (fun x => x * 3), none) :=
  ⟨by decide, fmap_transforms_each_element.2.1 Nat Nat Nat _ _ (by decide)⟩
